import Mathlib

/-!
Verification of the manifest validator of nexus-plugin-cli
(`src/lib/validate.js`) against its natural-language specification.

The validator is shallowly embedded: JavaScript values reachable from a
parsed JSON document are modelled by `JsValue`, and the JavaScript
operations the validator performs on them (property access, truthiness,
`typeof`, string coercion, strict equality, `Array.isArray`,
`String.prototype.startsWith`, regular-expression tests) are modelled by
executable Lean functions.  Operations that can throw a `TypeError`
(property access on `null`/`undefined`, calling `.startsWith` on a
non-string) return `Except String`, so a thrown exception that escapes
the validator is modelled by `Except.error`.

The filesystem read and `JSON.parse` are external to this repository's
code; their outcome is modelled by the `LoadInput` type (file missing,
read error, parse error, or a parsed value).  JavaScript numbers are
modelled by `Int` (every numeric value the validator compares or prints
in the claims' scope is an integer); string lengths are code points
rather than UTF-16 code units, which agrees with JavaScript on all
strings without astral-plane characters.
-/

namespace Nexus

/-- A JavaScript value as reachable from `JSON.parse` output, plus
`undefined` for the result of reading an absent property. -/
inductive JsValue where
  | undefined
  | null
  | bool (b : Bool)
  | num (n : Int)
  | str (s : String)
  | arr (elems : List JsValue)
  | obj (fields : List (String × JsValue))
deriving Repr

/-- JavaScript truthiness (`if (v)`).  `NaN` is not representable in the
`Int` number model; every other falsy value is covered. -/
def truthy : JsValue → Bool
  | .undefined => false
  | .null => false
  | .bool b => b
  | .num n => n != 0
  | .str s => s != ""
  | .arr _ => true
  | .obj _ => true

/-- JavaScript `typeof v`. -/
def typeofStr : JsValue → String
  | .undefined => "undefined"
  | .null => "object"
  | .bool _ => "boolean"
  | .num _ => "number"
  | .str _ => "string"
  | .arr _ => "object"
  | .obj _ => "object"

/-- Property lookup on a value that is not `null`/`undefined`; the only
properties the validator reads off non-objects are `length` on strings
and arrays (anything else yields `undefined`). -/
def propLookup : JsValue → String → JsValue
  | .str s, p => if p = "length" then .num s.length else .undefined
  | .arr xs, p => if p = "length" then .num xs.length else .undefined
  | .obj fs, p =>
    match fs.find? (fun kv => kv.1 == p) with
    | some kv => kv.2
    | none => .undefined
  | _, _ => .undefined

/-- JavaScript property access `v.p`, which throws a `TypeError` when the
receiver is `null` or `undefined`. -/
def getProp (v : JsValue) (p : String) : Except String JsValue :=
  match v with
  | .undefined => .error ("TypeError: Cannot read properties of undefined (reading " ++ p ++ ")")
  | .null => .error ("TypeError: Cannot read properties of null (reading " ++ p ++ ")")
  | _ => .ok (propLookup v p)

/-- Optional chaining `v?.p`. -/
def optChain (v : JsValue) (p : String) : JsValue :=
  match v with
  | .undefined => .undefined
  | .null => .undefined
  | _ => propLookup v p

mutual

/-- JavaScript string coercion `String(v)` / template-literal
interpolation, including `Array.prototype.toString` (elements joined by
commas, `null`/`undefined` elements become empty strings). -/
def jsToString : JsValue → String
  | .undefined => "undefined"
  | .null => "null"
  | .bool true => "true"
  | .bool false => "false"
  | .num n => toString n
  | .str s => s
  | .obj _ => "[object Object]"
  | .arr xs => String.intercalate "," (jsToStringElems xs)

/-- Element-wise coercion used by `Array.prototype.join`. -/
def jsToStringElems : List JsValue → List String
  | [] => []
  | x :: rest =>
    (match x with
     | .undefined => ""
     | .null => ""
     | y => jsToString y) :: jsToStringElems rest

end

/-- JavaScript strict equality with a number literal (`v === k`). -/
def jsStrictEqNum (v : JsValue) (k : Int) : Bool :=
  match v with
  | .num n => n == k
  | _ => false

/-- JavaScript strict equality with a string literal (`v === "s"`). -/
def jsStrictEqStr (v : JsValue) (k : String) : Bool :=
  match v with
  | .str s => s == k
  | _ => false

/-- JavaScript `v > k` for a numeric literal `k`: `false` unless `v` is a
number (comparisons against `undefined` and other non-numbers are
`false` via `NaN`; string/array operands never reach a `>` in the
validator with a non-numeric value of interest). -/
def jsGtNum (v : JsValue) (k : Int) : Bool :=
  match v with
  | .num n => decide (k < n)
  | _ => false

/-- JavaScript `v.length <= limit` as used by the length-limit checks:
the `length` property is read off `v` and compared; a non-numeric
`length` (i.e. `undefined`) compares `false`. -/
def jsLengthLE (v : JsValue) (limit : Nat) : Bool :=
  match propLookup v "length" with
  | .num n => decide (n ≤ (limit : Int))
  | _ => false

/-- JavaScript loose inequality `v != null`, which is `false` exactly for
`null` and `undefined`. -/
def jsNeNull : JsValue → Bool
  | .undefined => false
  | .null => false
  | _ => true

/-- JavaScript `Array.isArray(v)`. -/
def isArray : JsValue → Bool
  | .arr _ => true
  | _ => false

/-- JavaScript `v.startsWith(pre)`: defined on strings, a `TypeError` on
everything else. -/
def jsStartsWith (v : JsValue) (pre : String) : Except String Bool :=
  match v with
  | .str s => .ok (s.startsWith pre)
  | .undefined => .error "TypeError: Cannot read properties of undefined (reading startsWith)"
  | .null => .error "TypeError: Cannot read properties of null (reading startsWith)"
  | _ => .error "TypeError: v.startsWith is not a function"

/-- JavaScript `Array.prototype.includes` on a list of strings
(SameValueZero: only a string value can match). -/
def includesStr (l : List String) (v : JsValue) : Bool :=
  match v with
  | .str s => l.contains s
  | _ => false

/-- SameValueZero equality as used by `Set.prototype.has`/`add`.
Primitives compare structurally; objects and arrays compare by
reference, and distinct parse nodes are distinct references, so two
array/object values arising at different places in one parsed document
never compare equal. -/
def sameValueZero : JsValue → JsValue → Bool
  | .undefined, .undefined => true
  | .null, .null => true
  | .bool a, .bool b => a == b
  | .num a, .num b => a == b
  | .str a, .str b => a == b
  | _, _ => false

/-- JavaScript `Object.entries(v)` for the values that reach it in the
validator (objects and arrays; arrays yield index keys). -/
def jsEntries : JsValue → List (String × JsValue)
  | .obj fs => fs
  | .arr xs => xs.enum.map (fun p => (toString p.1, p.2))
  | _ => []

-- ── Constants (validate.js lines 8-23) ─────────────────────────

/-- Mirror of `VALID_PERMISSIONS` (validate.js lines 8-17). -/
def VALID_PERMISSIONS : List String :=
  [ "system:info"
  , "filesystem:read"
  , "filesystem:write"
  , "process:list"
  , "docker:read"
  , "docker:manage"
  , "network:local"
  , "network:internet" ]

/-- Mirror of `VALID_SETTING_TYPES` (validate.js line 23). -/
def VALID_SETTING_TYPES : List String := ["string", "number", "boolean", "select"]

/-- Membership in the character class of `BIDI_CHARS`
(U+200E, U+200F, U+202A through U+202E, U+2066 through U+2069;
validate.js line 19). -/
def isBidiChar (c : Char) : Bool :=
  c.toNat == 0x200E || c.toNat == 0x200F ||
  (0x202A ≤ c.toNat && c.toNat ≤ 0x202E) ||
  (0x2066 ≤ c.toNat && c.toNat ≤ 0x2069)

/-- `BIDI_CHARS.test s` (unanchored search for one bidi character). -/
def hasBidi (s : String) : Bool := s.toList.any isBidiChar

/-- Character class `[a-z0-9_]` of `TOOL_NAME_RE` (validate.js line 20). -/
def isToolNameChar (c : Char) : Bool :=
  (('a' ≤ c && c ≤ 'z') || ('0' ≤ c && c ≤ '9') || c == '_')

/-- `TOOL_NAME_RE.test s` for `^[a-z0-9_]{1,100}$`. -/
def toolNameTest (s : String) : Bool :=
  decide (1 ≤ s.length) && decide (s.length ≤ 100) && s.toList.all isToolNameChar

/-- Character class `[a-z0-9_-]` of `EXT_ID_RE` (validate.js line 21). -/
def isExtIdChar (c : Char) : Bool := isToolNameChar c || c == '-'

/-- `EXT_ID_RE.test s` for `^[a-z0-9_-]{1,100}$`. -/
def extIdTest (s : String) : Bool :=
  decide (1 ≤ s.length) && decide (s.length ≤ 100) && s.toList.all isExtIdChar

/-- Lowercase hexadecimal digit, the class `[0-9a-f]`. -/
def isLowerHexChar (c : Char) : Bool :=
  (('0' ≤ c && c ≤ '9') || ('a' ≤ c && c ≤ 'f'))

/-- `DIGEST_RE.test s` for `^sha256:[0-9a-f]{64}$` (validate.js line 22). -/
def digestTest (s : String) : Bool :=
  s.startsWith "sha256:" &&
  decide ((s.drop 7).length = 64) &&
  (s.drop 7).toList.all isLowerHexChar

-- ── Output symbols (validate.js lines 27-29) ───────────────────

/-- Mirror of `PASS` (green check mark). -/
def PASS : String := "\x1b[32m✔\x1b[0m"

/-- Mirror of `FAIL` (red cross). -/
def FAIL : String := "\x1b[31m✘\x1b[0m"

/-- Mirror of `WARN_SYM` (yellow warning sign). -/
def WARN_SYM : String := "\x1b[33m⚠\x1b[0m"

-- ── Result accumulator (validate.js lines 46-65) ───────────────

/-- Result level: `"pass" | "fail" | "warn"`. -/
inductive Level where
  | pass
  | fail
  | warn
deriving Repr, DecidableEq

/-- One entry of the `results` array: `{ level, msg }`. -/
structure Entry where
  level : Level
  msg : String
deriving Repr, DecidableEq

/-- The validator's accumulator: the `results` array and the `errors`
and `warnings` counters (validate.js lines 46-48). -/
structure VState where
  results : List Entry
  errors : Nat
  warnings : Nat
deriving Repr, DecidableEq

/-- Mirror of `pass(msg)` (validate.js lines 50-52). -/
def pass (msg : String) (st : VState) : VState :=
  ⟨st.results ++ [⟨Level.pass, msg⟩], st.errors, st.warnings⟩

/-- Mirror of `fail(msg)` (validate.js lines 53-56). -/
def fail (msg : String) (st : VState) : VState :=
  ⟨st.results ++ [⟨Level.fail, msg⟩], st.errors + 1, st.warnings⟩

/-- Mirror of `warn(msg)` (validate.js lines 57-60). -/
def warn (msg : String) (st : VState) : VState :=
  ⟨st.results ++ [⟨Level.warn, msg⟩], st.errors, st.warnings + 1⟩

/-- Mirror of `check(condition, passMsg, failMsg)` (lines 62-65). -/
def check (condition : Bool) (passMsg failMsg : String) (st : VState) : VState :=
  if condition then pass passMsg st else fail failMsg st

-- ── Phase 1 checks (validate.js lines 92-291) ──────────────────

/-- The condition `manifest.f && typeof manifest.f === "string" &&
manifest.f.length > 0` shared by the `id`/`name`/`version`/
`description`/`image` required-field checks. -/
def requiredStrCond (v : JsValue) : Bool :=
  truthy v && typeofStr v == "string" && jsGtNum (propLookup v "length") 0

/-- Required-field checks (validate.js lines 92-126), in source order. -/
def requiredChecks (m : JsValue) (st : VState) : VState :=
  let st := check (requiredStrCond (propLookup m "id")) "id present" "id is required" st
  let st := check (requiredStrCond (propLookup m "name")) "name present" "name is required" st
  let st := check (requiredStrCond (propLookup m "version")) "version present" "version is required" st
  let st := check (requiredStrCond (propLookup m "description")) "description present" "description is required" st
  let st := check (truthy (propLookup m "author") && typeofStr (propLookup m "author") == "string")
    "author present" "author is required" st
  let st := check (requiredStrCond (propLookup m "image")) "image present" "image is required" st
  let ui := propLookup m "ui"
  check (truthy ui && typeofStr (propLookup ui "port") == "number" && jsGtNum (propLookup ui "port") 0)
    ("ui.port = " ++ jsToString (optChain ui "port"))
    "ui.port must be a non-zero number" st

/-- One line of the length-limit block (validate.js lines 130-135):
`if (manifest.f) check(manifest.f.length <= limit, ...)`. -/
def lengthCheck (v : JsValue) (fname : String) (limit : Nat) (st : VState) : VState :=
  if truthy v then
    check (jsLengthLE v limit) (fname ++ " length ok")
      (fname ++ " too long (" ++ jsToString (propLookup v "length") ++ "/" ++ toString limit ++ ")") st
  else st

/-- One iteration of the bidi loop (validate.js lines 141-146); the
`Bool` component is the `bidiClean` flag. -/
def bidiField (fname : String) (v : JsValue) (r : Bool × VState) : Bool × VState :=
  if truthy v && hasBidi (jsToString v) then
    (false, fail (fname ++ " contains bidirectional override characters") r.2)
  else r

/-- Bidi scan over `name`, `description`, `author` (lines 139-147). -/
def bidiSection (m : JsValue) (st : VState) : VState :=
  let r := bidiField "name" (propLookup m "name") (true, st)
  let r := bidiField "description" (propLookup m "description") r
  let r := bidiField "author" (propLookup m "author") r
  if r.1 then pass "no bidi override characters" r.2 else r.2

/-- Icon URL check (validate.js lines 151-158). -/
def iconCheck (icon : JsValue) (st : VState) : VState :=
  if jsNeNull icon then
    check (typeofStr icon == "string" &&
        (match icon with
         | .str s => s.startsWith "http://" || s.startsWith "https://"
         | _ => false))
      "icon URL valid" "icon must be an http or https URL" st
  else st

/-- Image digest check (validate.js lines 162-168). -/
def digestCheck (d : JsValue) (st : VState) : VState :=
  if jsNeNull d then
    check (digestTest (jsToString d)) "image_digest format valid"
      "image_digest must be \"sha256:\" followed by 64 hex characters" st
  else st

/-- The permission loop shared in shape by lines 174-179 and 219-224:
`mkMsg` builds the fail message from the offending token's string
coercion.  Calling `.startsWith` on a non-string entry throws. -/
def permLoop (mkMsg : String → String) :
    List JsValue → Bool → VState → Except String (Bool × VState)
  | [], permsOk, st => .ok (permsOk, st)
  | p :: rest, permsOk, st =>
    if includesStr VALID_PERMISSIONS p then permLoop mkMsg rest permsOk st
    else
      match jsStartsWith p "ext:" with
      | .error e => .error e
      | .ok true => permLoop mkMsg rest permsOk st
      | .ok false => permLoop mkMsg rest false (fail (mkMsg (jsToString p)) st)

/-- Top-level permissions section (validate.js lines 172-181). -/
def permissionsSection (permissions : JsValue) (st : VState) : Except String VState :=
  match permissions with
  | .arr xs =>
    match permLoop (fun t => "invalid permission: \"" ++ t ++ "\"") xs true st with
    | .error e => .error e
    | .ok (permsOk, st) =>
      .ok (if permsOk then pass ("permissions valid (" ++ toString xs.length ++ ")") st else st)
  | _ => .ok st

/-- Description sub-check of one MCP tool (validate.js lines 202-211);
the `Bool` component is `false` exactly when a fail entry was pushed. -/
def descCheckTool (nm : String) (description : JsValue) (st : VState) : Bool × VState :=
  if !truthy description || jsStrictEqNum (propLookup description "length") 0 then
    (false, fail ("MCP tool \"" ++ nm ++ "\" must have a description") st)
  else if jsGtNum (propLookup description "length") 2000 then
    (false, fail ("MCP tool \"" ++ nm ++ "\" description exceeds 2000 characters") st)
  else if hasBidi (jsToString description) then
    (false, fail ("MCP tool \"" ++ nm ++ "\" description contains bidi overrides") st)
  else (true, st)

/-- Input-schema sub-check of one MCP tool (validate.js lines 213-216). -/
def schemaCheckTool (nm : String) (ischema : JsValue) (st : VState) : Bool × VState :=
  if !truthy ischema || typeofStr ischema != "object" ||
      !jsStrictEqStr (propLookup ischema "type") "object" then
    (false, fail ("MCP tool \"" ++ nm ++ "\" input_schema must have \"type\": \"object\" at root") st)
  else (true, st)

/-- Per-tool permissions sub-check (validate.js lines 218-225): the
loop runs only when the value is an array. -/
def toolPermsCheck (nm : String) (tperms : JsValue) (st : VState) : Except String (Bool × VState) :=
  match tperms with
  | .arr xs =>
    permLoop (fun t => "MCP tool \"" ++ nm ++ "\" has invalid permission: \"" ++ t ++ "\"") xs true st
  | _ => .ok (true, st)

/-- Body of the MCP tool loop (validate.js lines 189-226).  The second
argument is the `toolNames` set, the third the `toolsOk` flag. -/
def toolLoop : List JsValue → List JsValue → Bool → VState → Except String (Bool × VState)
  | [], _, toolsOk, st => .ok (toolsOk, st)
  | tool :: rest, toolNames, toolsOk, st =>
    match getProp tool "name" with
    | .error e => .error e
    | .ok nameVal =>
      let nm := jsToString nameVal
      if !toolNameTest nm then
        toolLoop rest toolNames false
          (fail ("MCP tool name \"" ++ nm ++ "\" invalid (must be [a-z0-9_], 1-100 chars)") st)
      else if toolNames.any (fun x => sameValueZero x nameVal) then
        toolLoop rest toolNames false (fail ("duplicate MCP tool name: \"" ++ nm ++ "\"") st)
      else
        -- `tool` is not nullish here (the `tool.name` read succeeded),
        -- so its remaining property reads cannot throw.
        let dres := descCheckTool nm (propLookup tool "description") st
        let sres := schemaCheckTool nm (propLookup tool "input_schema") dres.2
        match toolPermsCheck nm (propLookup tool "permissions") sres.2 with
        | .error e => .error e
        | .ok (pok, st2) =>
          toolLoop rest (nameVal :: toolNames) (toolsOk && dres.1 && sres.1 && pok) st2

/-- MCP tools section (validate.js lines 185-229). -/
def mcpSection (mcp : JsValue) (st : VState) : Except String VState :=
  if truthy mcp then
    match propLookup mcp "tools" with
    | .arr tools =>
      match toolLoop tools [] true st with
      | .error e => .error e
      | .ok (toolsOk, st) =>
        .ok (if toolsOk then pass ("MCP tools valid (" ++ toString tools.length ++ ")") st else st)
    | _ => .ok st
  else .ok st

/-- Inner operation loop of the extensions section (lines 248-253). -/
def opLoop (extId : String) : List JsValue → Bool → VState → Bool × VState
  | [], ok, st => (ok, st)
  | op :: rest, ok, st =>
    if !extIdTest (jsToString op) then
      opLoop extId rest false
        (fail ("extension \"" ++ extId ++ "\" operation \"" ++ jsToString op ++ "\" must match [a-z0-9_-], 1-100 chars") st)
    else opLoop extId rest ok st

/-- Outer loop of the extensions section (validate.js lines 237-254). -/
def extLoop : List (String × JsValue) → Bool → VState → Bool × VState
  | [], ok, st => (ok, st)
  | (extId, operations) :: rest, ok, st =>
    if !extIdTest extId then
      extLoop rest false
        (fail ("extension ID \"" ++ extId ++ "\" must match [a-z0-9_-], 1-100 chars") st)
    else
      match operations with
      | .arr ops =>
        if ops.length == 0 then
          extLoop rest false (fail ("extension \"" ++ extId ++ "\" must declare at least one operation") st)
        else
          let r := opLoop extId ops ok st
          extLoop rest r.1 r.2
      | _ =>
        extLoop rest false (fail ("extension \"" ++ extId ++ "\" must declare at least one operation") st)

/-- Extensions section (validate.js lines 233-257). -/
def extensionsSection (ext : JsValue) (st : VState) : VState :=
  if truthy ext && typeofStr ext == "object" then
    let entries := jsEntries ext
    let r := extLoop entries true st
    if r.1 && decide (0 < entries.length) then
      pass ("extensions valid (" ++ toString entries.length ++ ")") r.2
    else r.2
  else st

/-- Settings loop (validate.js lines 264-278).  Reading `setting.key`
off a `null` element throws. -/
def settingLoop : List JsValue → Bool → VState → Except String (Bool × VState)
  | [], ok, st => .ok (ok, st)
  | setting :: rest, ok, st =>
    match getProp setting "key" with
    | .error e => .error e
    | .ok key =>
      if !truthy key || typeofStr key != "string" then
        settingLoop rest false (fail "setting missing key" st)
      else
        let stype := propLookup setting "type"
        let r1 : Bool × VState :=
          if !includesStr VALID_SETTING_TYPES stype then
            (false, fail ("setting \"" ++ jsToString key ++ "\" has invalid type \"" ++ jsToString stype ++ "\" (must be string/number/boolean/select)") st)
          else (true, st)
        let r2 : Bool × VState :=
          if jsStrictEqStr stype "select" &&
              (match propLookup setting "options" with
               | .arr os => decide (os.length = 0)
               | _ => true) then
            (false, fail ("setting \"" ++ jsToString key ++ "\" type \"select\" requires a non-empty options array") r1.2)
          else (true, r1.2)
        settingLoop rest (ok && r1.1 && r2.1) r2.2

/-- Settings section (validate.js lines 261-281). -/
def settingsSection (settings : JsValue) (st : VState) : Except String VState :=
  match settings with
  | .arr xs =>
    match settingLoop xs true st with
    | .error e => .error e
    | .ok (settingsOk, st) =>
      .ok (if settingsOk && decide (0 < xs.length) then
        pass ("settings valid (" ++ toString xs.length ++ ")") st else st)
  | _ => .ok st

/-- Dockerfile advisory check (validate.js lines 285-291); whether a
sibling `Dockerfile` exists is an input to the model. -/
def dockerfileCheck (dockerfileExists : Bool) (st : VState) : VState :=
  if !dockerfileExists then warn "no Dockerfile found next to plugin.json" st
  else pass "Dockerfile found" st

/-- Phase 1 of `validate` (validate.js lines 92-291), run on the parsed
manifest.  The very first statement reads `manifest.id`, so a `null` (or
`undefined`) manifest throws there; past that point every direct
`manifest.x` read is a plain lookup. -/
def runChecks (m : JsValue) (dockerfileExists : Bool) (st : VState) : Except String VState :=
  match m with
  | .null => .error "TypeError: Cannot read properties of null (reading id)"
  | .undefined => .error "TypeError: Cannot read properties of undefined (reading id)"
  | _ => do
    let st := requiredChecks m st
    let st := lengthCheck (propLookup m "id") "id" 100 st
    let st := lengthCheck (propLookup m "name") "name" 100 st
    let st := lengthCheck (propLookup m "version") "version" 50 st
    let st := lengthCheck (propLookup m "description") "description" 2000 st
    let st := lengthCheck (propLookup m "author") "author" 100 st
    let st := lengthCheck (propLookup m "image") "image" 200 st
    let st := bidiSection m st
    let st := iconCheck (propLookup m "icon") st
    let st := digestCheck (propLookup m "image_digest") st
    let st ← permissionsSection (propLookup m "permissions") st
    let st ← mcpSection (propLookup m "mcp") st
    let st := extensionsSection (propLookup m "extensions") st
    let st ← settingsSection (propLookup m "settings") st
    pure (dockerfileCheck dockerfileExists st)

-- ── Load phase and top level (validate.js lines 33-88, 293-327) ─

/-- Models the outcome of the filesystem read and `JSON.parse`
(validate.js lines 36-88): the target resolves to a missing file, an
unreadable file (with the caught error's message), syntactically
invalid JSON (with the parse error's message), or a parsed value.
The filesystem and the JSON parser are external to this repository. -/
inductive LoadInput where
  | missing
  | readError (msg : String)
  | parseError (msg : String)
  | parsed (m : JsValue)

/-- The empty accumulator (validate.js lines 46-48). -/
def initialState : VState := ⟨[], 0, 0⟩

/-- `validate` up to (but not including) the `output` call: the final
accumulator state, or the escaped exception. -/
def runValidate (input : LoadInput) (dockerfileExists : Bool) : Except String VState :=
  match input with
  | .missing => .ok (fail "plugin.json not found" initialState)
  | .readError msg => .ok (fail ("Cannot read plugin.json: " ++ msg) initialState)
  | .parseError msg => .ok (fail ("Invalid JSON: " ++ msg) initialState)
  | .parsed m => runChecks m dockerfileExists initialState

-- ── Result reporter (validate.js lines 298-327) ────────────────

/-- The single structured record printed in `--json` mode
(validate.js lines 300-306); `results` entries are `{level, message}`
pairs, carried here as `Entry` values. -/
structure JsonOutput where
  file : String
  ok : Bool
  errors : Nat
  warnings : Nat
  results : List Entry
deriving Repr, DecidableEq

/-- What `output` prints: the one JSON record, or the human-readable
lines.  The human header displays the manifest path relative to the
current working directory; that display-only relativisation is
environment formatting and the path is carried verbatim here. -/
inductive Rendered where
  | json (o : JsonOutput)
  | human (lines : List String)
deriving Repr, DecidableEq

/-- One human-mode line per result entry (validate.js lines 313-317). -/
def humanLine (e : Entry) : String :=
  match e.level with
  | .pass => "  " ++ PASS ++ " " ++ e.msg
  | .fail => "  " ++ FAIL ++ " " ++ e.msg
  | .warn => "  " ++ WARN_SYM ++ " " ++ e.msg

/-- Human-mode output lines (validate.js lines 312-324). -/
def humanLines (manifestPath : String) (results : List Entry) (errors warnings : Nat) : List String :=
  ("\n  Validating " ++ manifestPath ++ "\n") ::
  results.map humanLine ++
  [ ""
  , if errors == 0 then
      "  \x1b[32mValidation passed\x1b[0m" ++
      (if 0 < warnings then " with " ++ toString warnings ++ " warning(s)" else "") ++ "\n"
    else
      "  \x1b[31m" ++ toString errors ++ " error(s)\x1b[0m" ++
      (if 0 < warnings then ", " ++ toString warnings ++ " warning(s)" else "") ++ "\n" ]

/-- Mirror of `output(manifestPath, results, errors, warnings, jsonMode)`
(validate.js lines 298-327): what is printed, and the returned overall
success boolean `errors === 0`. -/
def output (manifestPath : String) (results : List Entry) (errors warnings : Nat)
    (jsonMode : Bool) : Rendered × Bool :=
  if jsonMode then
    (.json ⟨manifestPath, errors == 0, errors, warnings, results⟩, errors == 0)
  else
    (.human (humanLines manifestPath results errors warnings), errors == 0)

/-- Mirror of `validate(target, opts)` (validate.js lines 33-296):
either the escaped exception, or what is printed together with the
returned overall-success boolean. -/
def validate (input : LoadInput) (dockerfileExists jsonMode : Bool)
    (manifestPath : String) : Except String (Rendered × Bool) :=
  match runValidate input dockerfileExists with
  | .error e => .error e
  | .ok st => .ok (output manifestPath st.results st.errors st.warnings jsonMode)

-- ── Specification-side definitions used by the claims ──────────

/-- Number of entries with level `fail` in a result list. -/
def countFail (l : List Entry) : Nat := l.countP (fun e => e.level == Level.fail)

/-- Number of entries with level `warn` in a result list. -/
def countWarn (l : List Entry) : Nat := l.countP (fun e => e.level == Level.warn)

/-- The counters of a state agree with the entry counts of its results
list (the invariant of claim C10). -/
def countersOk (st : VState) : Prop :=
  st.errors = countFail st.results ∧ st.warnings = countWarn st.results

/-- A state extends another by exactly the entries `d`, with counters
advanced accordingly. -/
def extendsBy (st st2 : VState) (d : List Entry) : Prop :=
  st2.results = st.results ++ d ∧
  st2.errors = st.errors + countFail d ∧
  st2.warnings = st.warnings + countWarn d

/-- Not `null` and not `undefined`. -/
def nonNullish : JsValue → Bool
  | .null => false
  | .undefined => false
  | _ => true

/-- A permissions value whose validation loop cannot throw: if it is an
array, every entry is a string. -/
def stringsOnly : JsValue → Bool
  | .arr xs => xs.all (fun x => match x with | .str _ => true | _ => false)
  | _ => true

/-- The MCP tool loop for this `mcp` value cannot throw: every tool in
a `mcp.tools` array is non-nullish and has a throw-free permissions
value. -/
def safeTools (mcp : JsValue) : Bool :=
  if truthy mcp then
    match propLookup mcp "tools" with
    | .arr tools => tools.all (fun t => nonNullish t && stringsOnly (propLookup t "permissions"))
    | _ => true
  else true

/-- The settings loop for this value cannot throw: if it is an array,
every element is non-nullish. -/
def safeSettings : JsValue → Bool
  | .arr xs => xs.all nonNullish
  | _ => true

/-- Inputs on which the validator provably raises no exception: the
parsed value is not `null` (or `undefined`), permission entries are
strings, and `mcp.tools` / `settings` elements are non-nullish (the
amended form of claim C3). -/
def safeManifest (m : JsValue) : Bool :=
  nonNullish m &&
  stringsOnly (propLookup m "permissions") &&
  safeTools (propLookup m "mcp") &&
  safeSettings (propLookup m "settings")

/-- A valid permission token: one of the eight recognized strings or
`ext:`-prefixed (spec section 3). -/
def validPerm (s : String) : Bool :=
  VALID_PERMISSIONS.contains s || s.startsWith "ext:"

/-- A permission value the loop accepts without failing. -/
def permOkVal (p : JsValue) : Bool :=
  includesStr VALID_PERMISSIONS p ||
  (match p with
   | .str s => s.startsWith "ext:"
   | _ => false)

/-- The description sub-check of an MCP tool passes (no branch of
validate.js lines 202-211 fails). -/
def descriptionOkSpec (d : JsValue) : Bool :=
  !(!truthy d || jsStrictEqNum (propLookup d "length") 0) &&
  !jsGtNum (propLookup d "length") 2000 && !hasBidi (jsToString d)

/-- The input-schema sub-check of an MCP tool passes (validate.js lines
213-216). -/
def schemaOkSpec (s : JsValue) : Bool :=
  !(!truthy s || typeofStr s != "object" || !jsStrictEqStr (propLookup s "type") "object")

/-- The per-tool permissions sub-check passes. -/
def toolPermsOkSpec : JsValue → Bool
  | .arr xs => xs.all permOkVal
  | _ => true

/-- Every sub-check of one MCP tool passes, relative to the set `seen`
of previously recorded tool names. -/
def toolClean (seen : List JsValue) (t : JsValue) : Bool :=
  toolNameTest (jsToString (propLookup t "name")) &&
  !(seen.any (fun x => sameValueZero x (propLookup t "name"))) &&
  descriptionOkSpec (propLookup t "description") &&
  schemaOkSpec (propLookup t "input_schema") &&
  toolPermsOkSpec (propLookup t "permissions")

/-- The name set after processing one tool: a tool's name is recorded
exactly when it passes the pattern check and is not a duplicate. -/
def seenAfterTool (seen : List JsValue) (t : JsValue) : List JsValue :=
  if toolNameTest (jsToString (propLookup t "name")) &&
      !(seen.any (fun x => sameValueZero x (propLookup t "name"))) then
    propLookup t "name" :: seen
  else seen

/-- Every tool in the list passes every sub-check (names unique along
the way). -/
def allCleanTools (seen : List JsValue) : List JsValue → Bool
  | [] => true
  | t :: ts => toolClean seen t && allCleanTools (seenAfterTool seen t) ts

/-- The name string of a tool (its `name` property when that is a
string, `""` otherwise; under the hypotheses of claim C6 every name is
a string). -/
def toolNameOf (t : JsValue) : String :=
  match propLookup t "name" with
  | .str s => s
  | _ => ""

/-- The duplicate-name fail message for name `s` (validate.js line 196). -/
def dupMsg (s : String) : String := "duplicate MCP tool name: \"" ++ s ++ "\""

/-- An entry reporting a duplicate tool name: its message starts with
the 25-character prefix `duplicate MCP tool name: `. -/
def isDupEntry (e : Entry) : Bool :=
  e.level == Level.fail && e.msg.data.take 25 == ("duplicate MCP tool name: ").data

/-- The duplicate events of a name sequence processed against a name
set: a name already seen is reported (and not re-added), a fresh name is
added silently. -/
def dupEvents (seen : List String) : List String → List String
  | [] => []
  | n :: rest =>
    if n ∈ seen then n :: dupEvents seen rest
    else dupEvents (n :: seen) rest

/-- The name set after processing a name sequence (companion of
`dupEvents`). -/
def seenAfter (seen : List String) : List String → List String
  | [] => seen
  | n :: rest =>
    if n ∈ seen then seenAfter seen rest
    else seenAfter (n :: seen) rest

/-- The end-to-end example manifest of claim C9. -/
def exampleManifest : JsValue :=
  .obj [ ("id", .str "com.a.b")
       , ("name", .str "X")
       , ("version", .str "1.0.0")
       , ("description", .str "d")
       , ("author", .str "me")
       , ("image", .str "img:tag")
       , ("ui", .obj [("port", .num 80)]) ]

/-- Existential form of state extension. -/
def grows (st st2 : VState) : Prop := ∃ d, extendsBy st st2 d

-- ── Proofs ─────────────────────────────────────────────────────

theorem countFail_append (a b : List Entry) : countFail (a ++ b) = countFail a + countFail b := by
  simp [countFail, List.countP_append]

theorem countWarn_append (a b : List Entry) : countWarn (a ++ b) = countWarn a + countWarn b := by
  simp [countWarn, List.countP_append]

theorem extendsBy_refl (st : VState) : extendsBy st st [] := by
  simp [extendsBy, countFail, countWarn]

theorem extendsBy_trans {st st2 st3 : VState} {d d2 : List Entry}
    (h : extendsBy st st2 d) (h2 : extendsBy st2 st3 d2) : extendsBy st st3 (d ++ d2) := by
  obtain ⟨hr, he, hw⟩ := h
  obtain ⟨hr2, he2, hw2⟩ := h2
  refine ⟨?_, ?_, ?_⟩ <;>
    simp [hr2, hr, he2, he, hw2, hw, countFail_append, countWarn_append, Nat.add_assoc]

theorem extendsBy_pass (st : VState) (m : String) :
    extendsBy st (pass m st) [⟨Level.pass, m⟩] := by
  simp [extendsBy, pass, countFail, countWarn]

theorem extendsBy_fail (st : VState) (m : String) :
    extendsBy st (fail m st) [⟨Level.fail, m⟩] := by
  simp [extendsBy, fail, countFail, countWarn]

theorem extendsBy_warn (st : VState) (m : String) :
    extendsBy st (warn m st) [⟨Level.warn, m⟩] := by
  simp [extendsBy, warn, countFail, countWarn]

theorem grows_refl (st : VState) : grows st st := ⟨[], extendsBy_refl st⟩

theorem grows_trans {st st2 st3 : VState} (h : grows st st2) (h2 : grows st2 st3) : grows st st3 := by
  obtain ⟨d, hd⟩ := h
  obtain ⟨d2, hd2⟩ := h2
  exact ⟨d ++ d2, extendsBy_trans hd hd2⟩

theorem grows_pass (st : VState) (m : String) : grows st (pass m st) := ⟨_, extendsBy_pass st m⟩
theorem grows_fail (st : VState) (m : String) : grows st (fail m st) := ⟨_, extendsBy_fail st m⟩
theorem grows_warn (st : VState) (m : String) : grows st (warn m st) := ⟨_, extendsBy_warn st m⟩

theorem grows_check (st : VState) (c : Bool) (pm fm : String) : grows st (check c pm fm st) := by
  unfold check
  split
  · exact grows_pass st pm
  · exact grows_fail st fm

theorem countersOk_of_grows {st st2 : VState} (h : countersOk st) (h2 : grows st st2) :
    countersOk st2 := by
  obtain ⟨d, hr, he, hw⟩ := h2
  obtain ⟨h1, h2⟩ := h
  constructor
  · simp [hr, he, countFail_append, h1]
  · simp [hr, hw, countWarn_append, h2]

theorem grows_requiredChecks (m : JsValue) (st : VState) : grows st (requiredChecks m st) := by
  unfold requiredChecks
  exact grows_trans (grows_trans (grows_trans (grows_trans (grows_trans (grows_trans
    (grows_check ..) (grows_check ..)) (grows_check ..)) (grows_check ..)) (grows_check ..))
    (grows_check ..)) (grows_check ..)

theorem grows_lengthCheck (v : JsValue) (f : String) (lim : Nat) (st : VState) :
    grows st (lengthCheck v f lim st) := by
  unfold lengthCheck
  split
  · exact grows_check ..
  · exact grows_refl st

theorem grows_bidiField (f : String) (v : JsValue) (r : Bool × VState) :
    grows r.2 (bidiField f v r).2 := by
  unfold bidiField
  split
  · exact grows_fail ..
  · exact grows_refl _

theorem grows_bidiSection (m : JsValue) (st : VState) : grows st (bidiSection m st) := by
  unfold bidiSection
  dsimp only
  have g1 : grows st (bidiField "name" (propLookup m "name") (true, st)).2 :=
    grows_bidiField _ _ _
  have g2 := grows_bidiField "description" (propLookup m "description")
    (bidiField "name" (propLookup m "name") (true, st))
  have g3 := grows_bidiField "author" (propLookup m "author")
    (bidiField "description" (propLookup m "description")
      (bidiField "name" (propLookup m "name") (true, st)))
  have g := grows_trans (grows_trans g1 g2) g3
  split
  · exact grows_trans g (grows_pass ..)
  · exact g

theorem grows_iconCheck (v : JsValue) (st : VState) : grows st (iconCheck v st) := by
  unfold iconCheck
  split
  · exact grows_check ..
  · exact grows_refl st

theorem grows_digestCheck (v : JsValue) (st : VState) : grows st (digestCheck v st) := by
  unfold digestCheck
  split
  · exact grows_check ..
  · exact grows_refl st

theorem grows_permLoop (mk : String → String) :
    ∀ (l : List JsValue) (ok ok2 : Bool) (st st2 : VState),
      permLoop mk l ok st = .ok (ok2, st2) → grows st st2 := by
  intro l
  induction l with
  | nil =>
    intro ok ok2 st st2 h
    simp [permLoop] at h
    obtain ⟨-, h2⟩ := h
    subst h2
    exact grows_refl st
  | cons p rest ih =>
    intro ok ok2 st st2 h
    simp only [permLoop] at h
    split at h
    · exact ih _ _ _ _ h
    · split at h
      · exact absurd h (by simp)
      · exact ih _ _ _ _ h
      · exact grows_trans (grows_fail ..) (ih _ _ _ _ h)

theorem grows_permissionsSection (v : JsValue) (st st2 : VState)
    (h : permissionsSection v st = .ok st2) : grows st st2 := by
  unfold permissionsSection at h
  split at h
  · split at h
    · exact absurd h (by simp)
    · rename_i ok stml hml
      simp only [Except.ok.injEq] at h
      subst h
      split
      · exact grows_trans (grows_permLoop _ _ _ _ _ _ hml) (grows_pass ..)
      · exact grows_permLoop _ _ _ _ _ _ hml
  · simp only [Except.ok.injEq] at h
    subst h
    exact grows_refl st

theorem grows_descCheckTool (nm : String) (d : JsValue) (st : VState) :
    grows st (descCheckTool nm d st).2 := by
  unfold descCheckTool
  split
  · exact grows_fail ..
  · split
    · exact grows_fail ..
    · split
      · exact grows_fail ..
      · exact grows_refl _

theorem grows_schemaCheckTool (nm : String) (v : JsValue) (st : VState) :
    grows st (schemaCheckTool nm v st).2 := by
  unfold schemaCheckTool
  split
  · exact grows_fail ..
  · exact grows_refl _

theorem grows_toolPermsCheck (nm : String) (v : JsValue) (ok : Bool) (st st2 : VState)
    (h : toolPermsCheck nm v st = .ok (ok, st2)) : grows st st2 := by
  unfold toolPermsCheck at h
  split at h
  · exact grows_permLoop _ _ _ _ _ _ h
  · simp only [Except.ok.injEq, Prod.mk.injEq] at h
    obtain ⟨-, h2⟩ := h
    subst h2
    exact grows_refl st

theorem grows_toolLoop :
    ∀ (tools toolNames : List JsValue) (ok ok2 : Bool) (st st2 : VState),
      toolLoop tools toolNames ok st = .ok (ok2, st2) → grows st st2 := by
  intro tools
  induction tools with
  | nil =>
    intro tns ok ok2 st st2 h
    simp [toolLoop] at h
    obtain ⟨-, h2⟩ := h
    subst h2
    exact grows_refl st
  | cons tool rest ih =>
    intro tns ok ok2 st st2 h
    simp only [toolLoop] at h
    split at h
    · exact absurd h (by simp)
    · split at h
      · exact grows_trans (grows_fail ..) (ih _ _ _ _ _ h)
      · split at h
        · exact grows_trans (grows_fail ..) (ih _ _ _ _ _ h)
        · split at h
          · exact absurd h (by simp)
          · rename_i nameVal hname hpat hdup x pok st3 hperm
            have g1 := grows_descCheckTool (jsToString nameVal) (propLookup tool "description") st
            have g2 := grows_schemaCheckTool (jsToString nameVal) (propLookup tool "input_schema")
              (descCheckTool (jsToString nameVal) (propLookup tool "description") st).2
            have g3 := grows_toolPermsCheck _ _ _ _ _ hperm
            exact grows_trans (grows_trans (grows_trans g1 g2) g3) (ih _ _ _ _ _ h)

theorem grows_mcpSection (v : JsValue) (st st2 : VState)
    (h : mcpSection v st = .ok st2) : grows st st2 := by
  unfold mcpSection at h
  split at h
  · split at h
    · split at h
      · exact absurd h (by simp)
      · rename_i ok stml hml
        simp only [Except.ok.injEq] at h
        subst h
        split
        · exact grows_trans (grows_toolLoop _ _ _ _ _ _ hml) (grows_pass ..)
        · exact grows_toolLoop _ _ _ _ _ _ hml
    · simp only [Except.ok.injEq] at h
      subst h
      exact grows_refl st
  · simp only [Except.ok.injEq] at h
    subst h
    exact grows_refl st

theorem grows_opLoop (extId : String) :
    ∀ (ops : List JsValue) (ok : Bool) (st : VState), grows st (opLoop extId ops ok st).2 := by
  intro ops
  induction ops with
  | nil => intro ok st; exact grows_refl st
  | cons op rest ih =>
    intro ok st
    simp only [opLoop]
    split
    · exact grows_trans (grows_fail ..) (ih _ _)
    · exact ih _ _

theorem grows_extLoop :
    ∀ (entries : List (String × JsValue)) (ok : Bool) (st : VState),
      grows st (extLoop entries ok st).2 := by
  intro entries
  induction entries with
  | nil => intro ok st; exact grows_refl st
  | cons e rest ih =>
    intro ok st
    simp only [extLoop]
    split
    · exact grows_trans (grows_fail ..) (ih _ _)
    · split
      · split
        · exact grows_trans (grows_fail ..) (ih _ _)
        · exact grows_trans (grows_opLoop _ _ _ _) (ih _ _)
      · exact grows_trans (grows_fail ..) (ih _ _)

theorem grows_extensionsSection (v : JsValue) (st : VState) :
    grows st (extensionsSection v st) := by
  unfold extensionsSection
  split
  · dsimp only
    split
    · exact grows_trans (grows_extLoop ..) (grows_pass ..)
    · exact grows_extLoop ..
  · exact grows_refl st

theorem grows_settingLoop :
    ∀ (l : List JsValue) (ok ok2 : Bool) (st st2 : VState),
      settingLoop l ok st = .ok (ok2, st2) → grows st st2 := by
  intro l
  induction l with
  | nil =>
    intro ok ok2 st st2 h
    simp [settingLoop] at h
    obtain ⟨-, h2⟩ := h
    subst h2
    exact grows_refl st
  | cons s rest ih =>
    intro ok ok2 st st2 h
    simp only [settingLoop] at h
    split at h
    · exact absurd h (by simp)
    · split at h
      · exact grows_trans (grows_fail ..) (ih _ _ _ _ h)
      · -- r1 and r2 are ifs over fail-extensions of st
        have g1 : ∀ (c : Bool) (m : String) (stx : VState),
            grows stx (if c then (false, fail m stx) else (true, stx)).2 := by
          intro c m stx
          split
          · exact grows_fail ..
          · exact grows_refl _
        refine grows_trans ?_ (ih _ _ _ _ h)
        split
        · split
          · exact grows_trans (grows_fail ..) (grows_fail ..)
          · exact grows_fail ..
        · split
          · exact grows_fail ..
          · exact grows_refl _

theorem grows_settingsSection (v : JsValue) (st st2 : VState)
    (h : settingsSection v st = .ok st2) : grows st st2 := by
  unfold settingsSection at h
  split at h
  · split at h
    · exact absurd h (by simp)
    · rename_i ok stml hml
      simp only [Except.ok.injEq] at h
      subst h
      split
      · exact grows_trans (grows_settingLoop _ _ _ _ _ hml) (grows_pass ..)
      · exact grows_settingLoop _ _ _ _ _ hml
  · simp only [Except.ok.injEq] at h
    subst h
    exact grows_refl st

theorem grows_dockerfileCheck (b : Bool) (st : VState) : grows st (dockerfileCheck b st) := by
  unfold dockerfileCheck
  split
  · exact grows_warn ..
  · exact grows_pass ..

theorem grows_pureChecks (m : JsValue) (st : VState) :
    grows st (digestCheck (propLookup m "image_digest")
      (iconCheck (propLookup m "icon")
        (bidiSection m
          (lengthCheck (propLookup m "image") "image" 200
            (lengthCheck (propLookup m "author") "author" 100
              (lengthCheck (propLookup m "description") "description" 2000
                (lengthCheck (propLookup m "version") "version" 50
                  (lengthCheck (propLookup m "name") "name" 100
                    (lengthCheck (propLookup m "id") "id" 100
                      (requiredChecks m st)))))))))) := by
  refine grows_trans (grows_requiredChecks m st) ?_
  refine grows_trans (grows_lengthCheck (propLookup m "id") "id" 100 _) ?_
  refine grows_trans (grows_lengthCheck (propLookup m "name") "name" 100 _) ?_
  refine grows_trans (grows_lengthCheck (propLookup m "version") "version" 50 _) ?_
  refine grows_trans (grows_lengthCheck (propLookup m "description") "description" 2000 _) ?_
  refine grows_trans (grows_lengthCheck (propLookup m "author") "author" 100 _) ?_
  refine grows_trans (grows_lengthCheck (propLookup m "image") "image" 200 _) ?_
  refine grows_trans (grows_bidiSection m _) ?_
  refine grows_trans (grows_iconCheck (propLookup m "icon") _) ?_
  exact grows_digestCheck (propLookup m "image_digest") _

theorem grows_runChecks (m : JsValue) (dfe : Bool) (st st2 : VState)
    (h : runChecks m dfe st = .ok st2) : grows st st2 := by
  unfold runChecks at h
  split at h
  · exact absurd h (by simp)
  · exact absurd h (by simp)
  · simp only [bind, Except.bind] at h
    split at h
    · exact absurd h (by simp)
    · rename_i stP hP
      split at h
      · exact absurd h (by simp)
      · rename_i stM hM
        split at h
        · exact absurd h (by simp)
        · rename_i stS hS
          simp only [pure, Except.pure, Except.ok.injEq] at h
          subst h
          refine grows_trans (grows_pureChecks m st) ?_
          refine grows_trans (grows_permissionsSection _ _ _ hP) ?_
          refine grows_trans (grows_mcpSection _ _ _ hM) ?_
          refine grows_trans (grows_extensionsSection (propLookup m "extensions") stM) ?_
          refine grows_trans (grows_settingsSection _ _ _ hS) ?_
          exact grows_dockerfileCheck dfe stS

theorem countersOk_initial : countersOk initialState := by
  constructor <;> rfl

theorem countersOk_runValidate (input : LoadInput) (dfe : Bool) (st : VState)
    (h : runValidate input dfe = .ok st) : countersOk st := by
  cases input with
  | missing =>
    simp only [runValidate, Except.ok.injEq] at h
    subst h
    exact countersOk_of_grows countersOk_initial (grows_fail ..)
  | readError msg =>
    simp only [runValidate, Except.ok.injEq] at h
    subst h
    exact countersOk_of_grows countersOk_initial (grows_fail ..)
  | parseError msg =>
    simp only [runValidate, Except.ok.injEq] at h
    subst h
    exact countersOk_of_grows countersOk_initial (grows_fail ..)
  | parsed m =>
    simp only [runValidate] at h
    exact countersOk_of_grows countersOk_initial (grows_runChecks _ _ _ _ h)

theorem runChecks_eq_of_nonNullish (m : JsValue) (hnn : nonNullish m = true)
    (dfe : Bool) (st : VState) :
    runChecks m dfe st = (do
      let st := requiredChecks m st
      let st := lengthCheck (propLookup m "id") "id" 100 st
      let st := lengthCheck (propLookup m "name") "name" 100 st
      let st := lengthCheck (propLookup m "version") "version" 50 st
      let st := lengthCheck (propLookup m "description") "description" 2000 st
      let st := lengthCheck (propLookup m "author") "author" 100 st
      let st := lengthCheck (propLookup m "image") "image" 200 st
      let st := bidiSection m st
      let st := iconCheck (propLookup m "icon") st
      let st := digestCheck (propLookup m "image_digest") st
      let st ← permissionsSection (propLookup m "permissions") st
      let st ← mcpSection (propLookup m "mcp") st
      let st := extensionsSection (propLookup m "extensions") st
      let st ← settingsSection (propLookup m "settings") st
      pure (dockerfileCheck dfe st)) := by
  cases m <;> first
    | rfl
    | simp [nonNullish] at hnn

theorem permLoop_ok_of_strings (mk : String → String) :
    ∀ (l : List JsValue),
      l.all (fun x => match x with | .str _ => true | _ => false) = true →
      ∀ (ok : Bool) (st : VState), ∃ r, permLoop mk l ok st = .ok r := by
  intro l
  induction l with
  | nil => intro _ ok st; exact ⟨(ok, st), rfl⟩
  | cons p rest ih =>
    intro hall ok st
    simp only [List.all_cons, Bool.and_eq_true] at hall
    obtain ⟨hp, hrest⟩ := hall
    simp only [permLoop]
    split
    · exact ih hrest _ _
    · cases p <;> simp at hp
      simp only [jsStartsWith]
      split
      · rename_i heq
        exact absurd heq (by simp)
      · exact ih hrest _ _
      · exact ih hrest _ _

theorem permissionsSection_ok (v : JsValue) (hs : stringsOnly v = true) (st : VState) :
    ∃ st2, permissionsSection v st = .ok st2 := by
  unfold permissionsSection
  split
  · rename_i xs
    simp only [stringsOnly] at hs
    obtain ⟨⟨ok, st2⟩, hml⟩ := permLoop_ok_of_strings _ xs hs true st
    rw [hml]
    exact ⟨_, rfl⟩
  · exact ⟨st, rfl⟩

theorem getProp_ok_of_nonNullish (v : JsValue) (hnn : nonNullish v = true) (p : String) :
    getProp v p = .ok (propLookup v p) := by
  cases v <;> first
    | rfl
    | simp [nonNullish] at hnn

theorem toolPermsCheck_ok (nm : String) (v : JsValue) (hs : stringsOnly v = true) (st : VState) :
    ∃ r, toolPermsCheck nm v st = .ok r := by
  unfold toolPermsCheck
  split
  · rename_i xs
    simp only [stringsOnly] at hs
    exact permLoop_ok_of_strings _ xs hs true st
  · exact ⟨_, rfl⟩

theorem toolLoop_ok :
    ∀ (tools : List JsValue),
      tools.all (fun t => nonNullish t && stringsOnly (propLookup t "permissions")) = true →
      ∀ (tns : List JsValue) (ok : Bool) (st : VState), ∃ r, toolLoop tools tns ok st = .ok r := by
  intro tools
  induction tools with
  | nil => intro _ tns ok st; exact ⟨(ok, st), rfl⟩
  | cons tool rest ih =>
    intro hall tns ok st
    simp only [List.all_cons, Bool.and_eq_true] at hall
    obtain ⟨⟨hnn, hperms⟩, hrest⟩ := hall
    simp only [toolLoop, getProp_ok_of_nonNullish tool hnn]
    split
    · exact ih hrest _ _ _
    · split
      · exact ih hrest _ _ _
      · obtain ⟨⟨pok, st3⟩, hpc⟩ := toolPermsCheck_ok (jsToString (propLookup tool "name"))
          (propLookup tool "permissions") hperms
          (schemaCheckTool (jsToString (propLookup tool "name")) (propLookup tool "input_schema")
            (descCheckTool (jsToString (propLookup tool "name")) (propLookup tool "description") st).2).2
        rw [hpc]
        exact ih hrest _ _ _

theorem mcpSection_ok (v : JsValue) (hs : safeTools v = true) (st : VState) :
    ∃ st2, mcpSection v st = .ok st2 := by
  unfold mcpSection
  unfold safeTools at hs
  split
  · rename_i htr
    rw [if_pos htr] at hs
    split
    · rename_i tools htools
      rw [htools] at hs
      obtain ⟨⟨ok, st2⟩, hml⟩ := toolLoop_ok tools hs [] true st
      rw [hml]
      exact ⟨_, rfl⟩
    · exact ⟨st, rfl⟩
  · exact ⟨st, rfl⟩

theorem settingLoop_ok :
    ∀ (l : List JsValue), l.all nonNullish = true →
      ∀ (ok : Bool) (st : VState), ∃ r, settingLoop l ok st = .ok r := by
  intro l
  induction l with
  | nil => intro _ ok st; exact ⟨(ok, st), rfl⟩
  | cons s rest ih =>
    intro hall ok st
    simp only [List.all_cons, Bool.and_eq_true] at hall
    obtain ⟨hnn, hrest⟩ := hall
    simp only [settingLoop, getProp_ok_of_nonNullish s hnn]
    split
    · exact ih hrest _ _
    · exact ih hrest _ _

theorem settingsSection_ok (v : JsValue) (hs : safeSettings v = true) (st : VState) :
    ∃ st2, settingsSection v st = .ok st2 := by
  unfold settingsSection
  split
  · rename_i xs
    simp only [safeSettings] at hs
    obtain ⟨⟨ok, st2⟩, hml⟩ := settingLoop_ok xs hs true st
    rw [hml]
    exact ⟨_, rfl⟩
  · exact ⟨st, rfl⟩

theorem runChecks_ok (m : JsValue) (hsafe : safeManifest m = true) (dfe : Bool) (st : VState) :
    ∃ st2, runChecks m dfe st = .ok st2 := by
  unfold safeManifest at hsafe
  simp only [Bool.and_eq_true] at hsafe
  obtain ⟨⟨⟨hnn, hperm⟩, htools⟩, hsettings⟩ := hsafe
  rw [runChecks_eq_of_nonNullish m hnn]
  simp only [bind, Except.bind]
  obtain ⟨st1, h1⟩ := permissionsSection_ok (propLookup m "permissions") hperm
    (digestCheck (propLookup m "image_digest")
      (iconCheck (propLookup m "icon")
        (bidiSection m
          (lengthCheck (propLookup m "image") "image" 200
            (lengthCheck (propLookup m "author") "author" 100
              (lengthCheck (propLookup m "description") "description" 2000
                (lengthCheck (propLookup m "version") "version" 50
                  (lengthCheck (propLookup m "name") "name" 100
                    (lengthCheck (propLookup m "id") "id" 100
                      (requiredChecks m st))))))))))
  obtain ⟨st2, h2⟩ := mcpSection_ok (propLookup m "mcp") htools st1
  obtain ⟨st3, h3⟩ := settingsSection_ok (propLookup m "settings") hsettings
    (extensionsSection (propLookup m "extensions") st2)
  simp only [h1, h2, h3]
  exact ⟨_, rfl⟩

theorem runChecks_dockerfile_last (m : JsValue) (dfe : Bool) (st st2 : VState)
    (h : runChecks m dfe st = .ok st2) : ∃ stX, st2 = dockerfileCheck dfe stX := by
  unfold runChecks at h
  split at h
  · exact absurd h (by simp)
  · exact absurd h (by simp)
  · simp only [bind, Except.bind] at h
    split at h
    · exact absurd h (by simp)
    · split at h
      · exact absurd h (by simp)
      · split at h
        · exact absurd h (by simp)
        · rename_i stS hS
          simp only [pure, Except.pure, Except.ok.injEq] at h
          exact ⟨_, h.symm⟩

/-- Claim C1: the overall success boolean returned by `validate` is
`errors == 0`, and it is `true` exactly when no `fail` entries were
recorded; `warn` entries never affect it.  This holds in both output
modes (`mode` is arbitrary). -/
theorem success_iff_no_fail_entries (input : LoadInput) (dfe mode : Bool)
    (p : String) (r : Rendered) (b : Bool)
    (h : validate input dfe mode p = .ok (r, b)) :
    ∃ st, runValidate input dfe = .ok st ∧
      (b = true ↔ countFail st.results = 0) ∧
      b = (st.errors == 0) := by
  unfold validate at h
  split at h
  · exact absurd h (by simp)
  · rename_i st hrv
    have hco := countersOk_runValidate _ _ _ hrv
    have hb : b = (st.errors == 0) := by
      unfold output at h
      split at h <;>
        · simp only [Except.ok.injEq, Prod.mk.injEq] at h
          exact h.2.symm
    refine ⟨st, hrv, ?_, hb⟩
    rw [hb, hco.1]
    simp

/-- Witness for C1 at a concrete input. -/
theorem success_iff_no_fail_entries_witness :
    ∃ st, runValidate LoadInput.missing true = .ok st ∧
      ((false : Bool) = true ↔ countFail st.results = 0) ∧
      (false : Bool) = (st.errors == 0) :=
  success_iff_no_fail_entries LoadInput.missing true true "plugin.json"
    (Rendered.json ⟨"plugin.json", false, 1, 0, [⟨Level.fail, "plugin.json not found"⟩]⟩)
    false rfl

/-- Claim C2: a missing, unreadable, or unparsable manifest yields a
single fail entry (with message `plugin.json not found` for a missing
file), no Phase 1 checks run, and the returned success boolean is
`false` in both modes. -/
theorem fatal_inputs_single_fail (dfe mode : Bool) (p msg : String) :
    (validate .missing dfe mode p =
      .ok (output p [⟨Level.fail, "plugin.json not found"⟩] 1 0 mode)) ∧
    (validate (.readError msg) dfe mode p =
      .ok (output p [⟨Level.fail, "Cannot read plugin.json: " ++ msg⟩] 1 0 mode)) ∧
    (validate (.parseError msg) dfe mode p =
      .ok (output p [⟨Level.fail, "Invalid JSON: " ++ msg⟩] 1 0 mode)) ∧
    (∀ l w, (output p l 1 w mode).2 = false) := by
  refine ⟨rfl, rfl, rfl, ?_⟩
  intro l w
  cases mode <;> rfl

/-- Counterexample to claim C3 as stated: a file whose JSON parses to
`null` makes the validator throw a `TypeError` past its boundary (the
first property read, `manifest.id`, has a `null` receiver). -/
theorem validate_throws_on_null_manifest :
    validate (.parsed .null) true false "plugin.json" =
      .error "TypeError: Cannot read properties of null (reading id)" := rfl

/-- Claim C3, amended: the validator returns a complete result list plus
a boolean on every load outcome whose parsed value (if any) is safe:
not `null`/`undefined`, permission entries all strings, and
`mcp.tools` / `settings` elements non-nullish. -/
theorem validate_total_on_safe_inputs (input : LoadInput) (dfe mode : Bool) (p : String)
    (hsafe : ∀ m, input = .parsed m → safeManifest m = true) :
    ∃ r b, validate input dfe mode p = .ok (r, b) := by
  cases input with
  | missing => exact ⟨_, _, rfl⟩
  | readError msg => exact ⟨_, _, rfl⟩
  | parseError msg => exact ⟨_, _, rfl⟩
  | parsed m =>
    obtain ⟨st2, h⟩ := runChecks_ok m (hsafe m rfl) dfe initialState
    simp only [validate, runValidate, h]
    exact ⟨_, _, rfl⟩

/-- Witness for the amended C3 at a concrete parsed manifest. -/
theorem validate_total_on_safe_inputs_witness :
    ∃ r b, validate (.parsed exampleManifest) false false "plugin.json" = .ok (r, b) :=
  validate_total_on_safe_inputs (.parsed exampleManifest) false false "plugin.json"
    (fun m hm => by cases hm; rfl)

/-- Claim C8: validation is deterministic, and the structured output
depends on the manifest path only through the `file` field: two runs on
the same load outcome at (possibly different) paths agree on the
returned boolean and on every other field of the structured record. -/
theorem structured_output_deterministic (input : LoadInput) (dfe : Bool) (p q : String)
    (o1 o2 : JsonOutput) (b1 b2 : Bool)
    (h1 : validate input dfe true p = .ok (.json o1, b1))
    (h2 : validate input dfe true q = .ok (.json o2, b2)) :
    b1 = b2 ∧ o1.ok = o2.ok ∧ o1.errors = o2.errors ∧ o1.warnings = o2.warnings ∧
      o1.results = o2.results := by
  unfold validate at h1 h2
  cases hrv : runValidate input dfe with
  | error e =>
    rw [hrv] at h1
    exact absurd h1 (by simp)
  | ok st =>
    rw [hrv] at h1 h2
    unfold output at h1 h2
    simp only [if_pos] at h1 h2
    simp only [Except.ok.injEq, Prod.mk.injEq, Rendered.json.injEq] at h1 h2
    obtain ⟨ho1, hb1⟩ := h1
    obtain ⟨ho2, hb2⟩ := h2
    subst hb1
    subst hb2
    rw [← ho1, ← ho2]
    exact ⟨rfl, rfl, rfl, rfl, rfl⟩

/-- Witness for C8 at a concrete input and two distinct paths. -/
theorem structured_output_deterministic_witness :
    (false : Bool) = false ∧ (false : Bool) = false ∧ (1 : Nat) = 1 ∧ (0 : Nat) = 0 ∧
      ([⟨Level.fail, "plugin.json not found"⟩] : List Entry) =
        [⟨Level.fail, "plugin.json not found"⟩] :=
  structured_output_deterministic LoadInput.missing true "a" "b"
    ⟨"a", false, 1, 0, [⟨Level.fail, "plugin.json not found"⟩]⟩
    ⟨"b", false, 1, 0, [⟨Level.fail, "plugin.json not found"⟩]⟩
    false false rfl rfl

/-- Claim C10: the `errors` and `warnings` counters of the final state
equal the number of `fail` and `warn` entries in the results list, every
entry's level is one of the three levels, and the structured output's
count fields equal the counts over its results array. -/
theorem counters_equal_level_counts (input : LoadInput) (dfe : Bool) (st : VState)
    (h : runValidate input dfe = .ok st) :
    st.errors = countFail st.results ∧ st.warnings = countWarn st.results ∧
    (∀ e ∈ st.results, e.level = Level.pass ∨ e.level = Level.fail ∨ e.level = Level.warn) ∧
    (∀ p o b, validate input dfe true p = .ok (.json o, b) →
      o.errors = countFail o.results ∧ o.warnings = countWarn o.results) := by
  have hco := countersOk_runValidate _ _ _ h
  refine ⟨hco.1, hco.2, ?_, ?_⟩
  · intro e _
    cases he : e.level
    · exact Or.inl rfl
    · exact Or.inr (Or.inl rfl)
    · exact Or.inr (Or.inr rfl)
  · intro p o b hv
    unfold validate at hv
    rw [h] at hv
    unfold output at hv
    simp only [if_pos] at hv
    simp only [Except.ok.injEq, Prod.mk.injEq, Rendered.json.injEq] at hv
    obtain ⟨ho, hb⟩ := hv
    rw [← ho]
    exact ⟨hco.1, hco.2⟩

/-- Witness for C10 at a concrete input. -/
theorem counters_equal_level_counts_witness :
    (1 : Nat) = countFail [⟨Level.fail, "plugin.json not found"⟩] ∧
    (0 : Nat) = countWarn [⟨Level.fail, "plugin.json not found"⟩] ∧
    (∀ e ∈ ([⟨Level.fail, "plugin.json not found"⟩] : List Entry),
      e.level = Level.pass ∨ e.level = Level.fail ∨ e.level = Level.warn) ∧
    (∀ p o b, validate LoadInput.missing false true p = .ok (.json o, b) →
      o.errors = countFail o.results ∧ o.warnings = countWarn o.results) :=
  counters_equal_level_counts LoadInput.missing false
    ⟨[⟨Level.fail, "plugin.json not found"⟩], 1, 0⟩ rfl

theorem level_beq_pass_fail : (Level.pass == Level.fail) = false := rfl
theorem level_beq_fail_fail : (Level.fail == Level.fail) = true := rfl
theorem level_beq_warn_fail : (Level.warn == Level.fail) = false := rfl
theorem level_beq_pass_warn : (Level.pass == Level.warn) = false := rfl
theorem level_beq_fail_warn : (Level.fail == Level.warn) = false := rfl
theorem level_beq_warn_warn : (Level.warn == Level.warn) = true := rfl

theorem str_bne_empty {s : String} (h : 0 < s.length) : (s != "") = true := by
  simp only [bne_iff_ne, ne_eq]
  intro hs
  subst hs
  simp at h

theorem requiredStrCond_str {s : String} (h : 0 < s.length) :
    requiredStrCond (.str s) = true := by
  simp [requiredStrCond, truthy, typeofStr, propLookup, jsGtNum, str_bne_empty h]
  omega

theorem lengthCheck_pass_str {s : String} (f : String) (lim : Nat)
    (h1 : 0 < s.length) (h2 : s.length ≤ lim) (st : VState) :
    lengthCheck (.str s) f lim st = pass (f ++ " length ok") st := by
  have ht : truthy (.str s) = true := str_bne_empty h1
  have hle : jsLengthLE (.str s) lim = true := by
    simp [jsLengthLE, propLookup]
    omega
  simp [lengthCheck, ht, hle, check]

theorem bidiField_clean_str {s : String} (f : String) (h : hasBidi s = false)
    (r : Bool × VState) : bidiField f (.str s) r = r := by
  simp [bidiField, jsToString, h]

theorem c4_missing_id (n v d a g : String) (port : Int)
    (hn1 : 0 < n.length) (hn2 : n.length ≤ 100)
    (hv1 : 0 < v.length) (hv2 : v.length ≤ 50)
    (hd1 : 0 < d.length) (hd2 : d.length ≤ 2000)
    (ha1 : 0 < a.length) (ha2 : a.length ≤ 100)
    (hg1 : 0 < g.length) (hg2 : g.length ≤ 200)
    (hport : 0 < port)
    (hbn : hasBidi n = false)
    (hbd : hasBidi d = false)
    (hba : hasBidi a = false)
    (dfe : Bool) :
    ∃ st, runValidate (.parsed (.obj [("name", .str n), ("version", .str v), ("description", .str d), ("author", .str a), ("image", .str g), ("ui", .obj [("port", .num port)])])) dfe = .ok st ∧
      st.results.filter (fun e => e.level == Level.fail) = [⟨Level.fail, "id is required"⟩] ∧
      st.errors = 1 := by
  rw [show runValidate (.parsed (.obj [("name", .str n), ("version", .str v), ("description", .str d), ("author", .str a), ("image", .str g), ("ui", .obj [("port", .num port)])])) dfe =
    runChecks (.obj [("name", .str n), ("version", .str v), ("description", .str d), ("author", .str a), ("image", .str g), ("ui", .obj [("port", .num port)])]) dfe initialState from rfl]
  rw [runChecks_eq_of_nonNullish _ (by rfl) dfe initialState]
  have hne : ∀ s : String, 0 < s.length → ¬(s = "") := by
    intro s hs h
    subst h
    simp at hs
  have hnen := hne n hn1
  have hnev := hne v hv1
  have hned := hne d hd1
  have hnea := hne a ha1
  have hneg := hne g hg1
  simp only [propLookup, List.find?]
  simp [requiredChecks, requiredStrCond_str, lengthCheck_pass_str, bidiField_clean_str,
    requiredStrCond, truthy, typeofStr, propLookup, jsGtNum, jsLengthLE, optChain, jsToString,
    check, bidiSection, bidiField, iconCheck, digestCheck, jsNeNull, lengthCheck,
    permissionsSection, mcpSection, extensionsSection, settingsSection,
    bind, Except.bind, pure, Except.pure, dockerfileCheck,
    hn1, hn2, hv1, hv2, hd1, hd2, ha1, ha2, hg1, hg2, hport, hbn, hbd, hba, hnen, hnev, hned, hnea, hneg,
    pass, fail, warn, initialState]
  cases dfe <;>
    simp [List.filter, level_beq_pass_fail, level_beq_fail_fail, level_beq_warn_fail]

theorem c4_missing_name (i v d a g : String) (port : Int)
    (hi1 : 0 < i.length) (hi2 : i.length ≤ 100)
    (hv1 : 0 < v.length) (hv2 : v.length ≤ 50)
    (hd1 : 0 < d.length) (hd2 : d.length ≤ 2000)
    (ha1 : 0 < a.length) (ha2 : a.length ≤ 100)
    (hg1 : 0 < g.length) (hg2 : g.length ≤ 200)
    (hport : 0 < port)
    (hbd : hasBidi d = false)
    (hba : hasBidi a = false)
    (dfe : Bool) :
    ∃ st, runValidate (.parsed (.obj [("id", .str i), ("version", .str v), ("description", .str d), ("author", .str a), ("image", .str g), ("ui", .obj [("port", .num port)])])) dfe = .ok st ∧
      st.results.filter (fun e => e.level == Level.fail) = [⟨Level.fail, "name is required"⟩] ∧
      st.errors = 1 := by
  rw [show runValidate (.parsed (.obj [("id", .str i), ("version", .str v), ("description", .str d), ("author", .str a), ("image", .str g), ("ui", .obj [("port", .num port)])])) dfe =
    runChecks (.obj [("id", .str i), ("version", .str v), ("description", .str d), ("author", .str a), ("image", .str g), ("ui", .obj [("port", .num port)])]) dfe initialState from rfl]
  rw [runChecks_eq_of_nonNullish _ (by rfl) dfe initialState]
  have hne : ∀ s : String, 0 < s.length → ¬(s = "") := by
    intro s hs h
    subst h
    simp at hs
  have hnei := hne i hi1
  have hnev := hne v hv1
  have hned := hne d hd1
  have hnea := hne a ha1
  have hneg := hne g hg1
  simp only [propLookup, List.find?]
  simp [requiredChecks, requiredStrCond_str, lengthCheck_pass_str, bidiField_clean_str,
    requiredStrCond, truthy, typeofStr, propLookup, jsGtNum, jsLengthLE, optChain, jsToString,
    check, bidiSection, bidiField, iconCheck, digestCheck, jsNeNull, lengthCheck,
    permissionsSection, mcpSection, extensionsSection, settingsSection,
    bind, Except.bind, pure, Except.pure, dockerfileCheck,
    hi1, hi2, hv1, hv2, hd1, hd2, ha1, ha2, hg1, hg2, hport, hbd, hba, hnei, hnev, hned, hnea, hneg,
    pass, fail, warn, initialState]
  cases dfe <;>
    simp [List.filter, level_beq_pass_fail, level_beq_fail_fail, level_beq_warn_fail]

theorem c4_missing_version (i n d a g : String) (port : Int)
    (hi1 : 0 < i.length) (hi2 : i.length ≤ 100)
    (hn1 : 0 < n.length) (hn2 : n.length ≤ 100)
    (hd1 : 0 < d.length) (hd2 : d.length ≤ 2000)
    (ha1 : 0 < a.length) (ha2 : a.length ≤ 100)
    (hg1 : 0 < g.length) (hg2 : g.length ≤ 200)
    (hport : 0 < port)
    (hbn : hasBidi n = false)
    (hbd : hasBidi d = false)
    (hba : hasBidi a = false)
    (dfe : Bool) :
    ∃ st, runValidate (.parsed (.obj [("id", .str i), ("name", .str n), ("description", .str d), ("author", .str a), ("image", .str g), ("ui", .obj [("port", .num port)])])) dfe = .ok st ∧
      st.results.filter (fun e => e.level == Level.fail) = [⟨Level.fail, "version is required"⟩] ∧
      st.errors = 1 := by
  rw [show runValidate (.parsed (.obj [("id", .str i), ("name", .str n), ("description", .str d), ("author", .str a), ("image", .str g), ("ui", .obj [("port", .num port)])])) dfe =
    runChecks (.obj [("id", .str i), ("name", .str n), ("description", .str d), ("author", .str a), ("image", .str g), ("ui", .obj [("port", .num port)])]) dfe initialState from rfl]
  rw [runChecks_eq_of_nonNullish _ (by rfl) dfe initialState]
  have hne : ∀ s : String, 0 < s.length → ¬(s = "") := by
    intro s hs h
    subst h
    simp at hs
  have hnei := hne i hi1
  have hnen := hne n hn1
  have hned := hne d hd1
  have hnea := hne a ha1
  have hneg := hne g hg1
  simp only [propLookup, List.find?]
  simp [requiredChecks, requiredStrCond_str, lengthCheck_pass_str, bidiField_clean_str,
    requiredStrCond, truthy, typeofStr, propLookup, jsGtNum, jsLengthLE, optChain, jsToString,
    check, bidiSection, bidiField, iconCheck, digestCheck, jsNeNull, lengthCheck,
    permissionsSection, mcpSection, extensionsSection, settingsSection,
    bind, Except.bind, pure, Except.pure, dockerfileCheck,
    hi1, hi2, hn1, hn2, hd1, hd2, ha1, ha2, hg1, hg2, hport, hbn, hbd, hba, hnei, hnen, hned, hnea, hneg,
    pass, fail, warn, initialState]
  cases dfe <;>
    simp [List.filter, level_beq_pass_fail, level_beq_fail_fail, level_beq_warn_fail]

theorem c4_missing_description (i n v a g : String) (port : Int)
    (hi1 : 0 < i.length) (hi2 : i.length ≤ 100)
    (hn1 : 0 < n.length) (hn2 : n.length ≤ 100)
    (hv1 : 0 < v.length) (hv2 : v.length ≤ 50)
    (ha1 : 0 < a.length) (ha2 : a.length ≤ 100)
    (hg1 : 0 < g.length) (hg2 : g.length ≤ 200)
    (hport : 0 < port)
    (hbn : hasBidi n = false)
    (hba : hasBidi a = false)
    (dfe : Bool) :
    ∃ st, runValidate (.parsed (.obj [("id", .str i), ("name", .str n), ("version", .str v), ("author", .str a), ("image", .str g), ("ui", .obj [("port", .num port)])])) dfe = .ok st ∧
      st.results.filter (fun e => e.level == Level.fail) = [⟨Level.fail, "description is required"⟩] ∧
      st.errors = 1 := by
  rw [show runValidate (.parsed (.obj [("id", .str i), ("name", .str n), ("version", .str v), ("author", .str a), ("image", .str g), ("ui", .obj [("port", .num port)])])) dfe =
    runChecks (.obj [("id", .str i), ("name", .str n), ("version", .str v), ("author", .str a), ("image", .str g), ("ui", .obj [("port", .num port)])]) dfe initialState from rfl]
  rw [runChecks_eq_of_nonNullish _ (by rfl) dfe initialState]
  have hne : ∀ s : String, 0 < s.length → ¬(s = "") := by
    intro s hs h
    subst h
    simp at hs
  have hnei := hne i hi1
  have hnen := hne n hn1
  have hnev := hne v hv1
  have hnea := hne a ha1
  have hneg := hne g hg1
  simp only [propLookup, List.find?]
  simp [requiredChecks, requiredStrCond_str, lengthCheck_pass_str, bidiField_clean_str,
    requiredStrCond, truthy, typeofStr, propLookup, jsGtNum, jsLengthLE, optChain, jsToString,
    check, bidiSection, bidiField, iconCheck, digestCheck, jsNeNull, lengthCheck,
    permissionsSection, mcpSection, extensionsSection, settingsSection,
    bind, Except.bind, pure, Except.pure, dockerfileCheck,
    hi1, hi2, hn1, hn2, hv1, hv2, ha1, ha2, hg1, hg2, hport, hbn, hba, hnei, hnen, hnev, hnea, hneg,
    pass, fail, warn, initialState]
  cases dfe <;>
    simp [List.filter, level_beq_pass_fail, level_beq_fail_fail, level_beq_warn_fail]

theorem c4_missing_author (i n v d g : String) (port : Int)
    (hi1 : 0 < i.length) (hi2 : i.length ≤ 100)
    (hn1 : 0 < n.length) (hn2 : n.length ≤ 100)
    (hv1 : 0 < v.length) (hv2 : v.length ≤ 50)
    (hd1 : 0 < d.length) (hd2 : d.length ≤ 2000)
    (hg1 : 0 < g.length) (hg2 : g.length ≤ 200)
    (hport : 0 < port)
    (hbn : hasBidi n = false)
    (hbd : hasBidi d = false)
    (dfe : Bool) :
    ∃ st, runValidate (.parsed (.obj [("id", .str i), ("name", .str n), ("version", .str v), ("description", .str d), ("image", .str g), ("ui", .obj [("port", .num port)])])) dfe = .ok st ∧
      st.results.filter (fun e => e.level == Level.fail) = [⟨Level.fail, "author is required"⟩] ∧
      st.errors = 1 := by
  rw [show runValidate (.parsed (.obj [("id", .str i), ("name", .str n), ("version", .str v), ("description", .str d), ("image", .str g), ("ui", .obj [("port", .num port)])])) dfe =
    runChecks (.obj [("id", .str i), ("name", .str n), ("version", .str v), ("description", .str d), ("image", .str g), ("ui", .obj [("port", .num port)])]) dfe initialState from rfl]
  rw [runChecks_eq_of_nonNullish _ (by rfl) dfe initialState]
  have hne : ∀ s : String, 0 < s.length → ¬(s = "") := by
    intro s hs h
    subst h
    simp at hs
  have hnei := hne i hi1
  have hnen := hne n hn1
  have hnev := hne v hv1
  have hned := hne d hd1
  have hneg := hne g hg1
  simp only [propLookup, List.find?]
  simp [requiredChecks, requiredStrCond_str, lengthCheck_pass_str, bidiField_clean_str,
    requiredStrCond, truthy, typeofStr, propLookup, jsGtNum, jsLengthLE, optChain, jsToString,
    check, bidiSection, bidiField, iconCheck, digestCheck, jsNeNull, lengthCheck,
    permissionsSection, mcpSection, extensionsSection, settingsSection,
    bind, Except.bind, pure, Except.pure, dockerfileCheck,
    hi1, hi2, hn1, hn2, hv1, hv2, hd1, hd2, hg1, hg2, hport, hbn, hbd, hnei, hnen, hnev, hned, hneg,
    pass, fail, warn, initialState]
  cases dfe <;>
    simp [List.filter, level_beq_pass_fail, level_beq_fail_fail, level_beq_warn_fail]

theorem c4_missing_image (i n v d a : String) (port : Int)
    (hi1 : 0 < i.length) (hi2 : i.length ≤ 100)
    (hn1 : 0 < n.length) (hn2 : n.length ≤ 100)
    (hv1 : 0 < v.length) (hv2 : v.length ≤ 50)
    (hd1 : 0 < d.length) (hd2 : d.length ≤ 2000)
    (ha1 : 0 < a.length) (ha2 : a.length ≤ 100)
    (hport : 0 < port)
    (hbn : hasBidi n = false)
    (hbd : hasBidi d = false)
    (hba : hasBidi a = false)
    (dfe : Bool) :
    ∃ st, runValidate (.parsed (.obj [("id", .str i), ("name", .str n), ("version", .str v), ("description", .str d), ("author", .str a), ("ui", .obj [("port", .num port)])])) dfe = .ok st ∧
      st.results.filter (fun e => e.level == Level.fail) = [⟨Level.fail, "image is required"⟩] ∧
      st.errors = 1 := by
  rw [show runValidate (.parsed (.obj [("id", .str i), ("name", .str n), ("version", .str v), ("description", .str d), ("author", .str a), ("ui", .obj [("port", .num port)])])) dfe =
    runChecks (.obj [("id", .str i), ("name", .str n), ("version", .str v), ("description", .str d), ("author", .str a), ("ui", .obj [("port", .num port)])]) dfe initialState from rfl]
  rw [runChecks_eq_of_nonNullish _ (by rfl) dfe initialState]
  have hne : ∀ s : String, 0 < s.length → ¬(s = "") := by
    intro s hs h
    subst h
    simp at hs
  have hnei := hne i hi1
  have hnen := hne n hn1
  have hnev := hne v hv1
  have hned := hne d hd1
  have hnea := hne a ha1
  simp only [propLookup, List.find?]
  simp [requiredChecks, requiredStrCond_str, lengthCheck_pass_str, bidiField_clean_str,
    requiredStrCond, truthy, typeofStr, propLookup, jsGtNum, jsLengthLE, optChain, jsToString,
    check, bidiSection, bidiField, iconCheck, digestCheck, jsNeNull, lengthCheck,
    permissionsSection, mcpSection, extensionsSection, settingsSection,
    bind, Except.bind, pure, Except.pure, dockerfileCheck,
    hi1, hi2, hn1, hn2, hv1, hv2, hd1, hd2, ha1, ha2, hport, hbn, hbd, hba, hnei, hnen, hnev, hned, hnea,
    pass, fail, warn, initialState]
  cases dfe <;>
    simp [List.filter, level_beq_pass_fail, level_beq_fail_fail, level_beq_warn_fail]

theorem c4_missing_ui (i n v d a g : String)
    (hi1 : 0 < i.length) (hi2 : i.length ≤ 100)
    (hn1 : 0 < n.length) (hn2 : n.length ≤ 100)
    (hv1 : 0 < v.length) (hv2 : v.length ≤ 50)
    (hd1 : 0 < d.length) (hd2 : d.length ≤ 2000)
    (ha1 : 0 < a.length) (ha2 : a.length ≤ 100)
    (hg1 : 0 < g.length) (hg2 : g.length ≤ 200)
    (hbn : hasBidi n = false)
    (hbd : hasBidi d = false)
    (hba : hasBidi a = false)
    (dfe : Bool) :
    ∃ st, runValidate (.parsed (.obj [("id", .str i), ("name", .str n), ("version", .str v), ("description", .str d), ("author", .str a), ("image", .str g)])) dfe = .ok st ∧
      st.results.filter (fun e => e.level == Level.fail) = [⟨Level.fail, "ui.port must be a non-zero number"⟩] ∧
      st.errors = 1 := by
  rw [show runValidate (.parsed (.obj [("id", .str i), ("name", .str n), ("version", .str v), ("description", .str d), ("author", .str a), ("image", .str g)])) dfe =
    runChecks (.obj [("id", .str i), ("name", .str n), ("version", .str v), ("description", .str d), ("author", .str a), ("image", .str g)]) dfe initialState from rfl]
  rw [runChecks_eq_of_nonNullish _ (by rfl) dfe initialState]
  have hne : ∀ s : String, 0 < s.length → ¬(s = "") := by
    intro s hs h
    subst h
    simp at hs
  have hnei := hne i hi1
  have hnen := hne n hn1
  have hnev := hne v hv1
  have hned := hne d hd1
  have hnea := hne a ha1
  have hneg := hne g hg1
  simp only [propLookup, List.find?]
  simp [requiredChecks, requiredStrCond_str, lengthCheck_pass_str, bidiField_clean_str,
    requiredStrCond, truthy, typeofStr, propLookup, jsGtNum, jsLengthLE, optChain, jsToString,
    check, bidiSection, bidiField, iconCheck, digestCheck, jsNeNull, lengthCheck,
    permissionsSection, mcpSection, extensionsSection, settingsSection,
    bind, Except.bind, pure, Except.pure, dockerfileCheck,
    hi1, hi2, hn1, hn2, hv1, hv2, hd1, hd2, ha1, ha2, hg1, hg2, hbn, hbd, hba, hnei, hnen, hnev, hned, hnea, hneg,
    pass, fail, warn, initialState]
  cases dfe <;>
    simp [List.filter, level_beq_pass_fail, level_beq_fail_fail, level_beq_warn_fail]

theorem validate_false_of_errors (input : LoadInput) (dfe : Bool) (st : VState)
    (h : runValidate input dfe = .ok st) (he : st.errors = 1) :
    ∀ mode p, ∃ r, validate input dfe mode p = .ok (r, false) := by
  intro mode p
  unfold validate
  rw [h]
  have h2 : (output p st.results st.errors st.warnings mode).2 = false := by
    unfold output
    split <;> simp [he]
  exact ⟨(output p st.results st.errors st.warnings mode).1, by rw [← h2]⟩

/-- Claim C4: a manifest (an object) that is valid except for exactly
one missing required field among id, name, version, description,
author, image, ui.port produces exactly one fail entry, that entry's
message names the missing field, and overall success is false. -/
theorem missing_required_field_yields_single_fail
    (i n v d a g : String) (port : Int)
    (hi1 : 0 < i.length) (hi2 : i.length ≤ 100)
    (hn1 : 0 < n.length) (hn2 : n.length ≤ 100)
    (hv1 : 0 < v.length) (hv2 : v.length ≤ 50)
    (hd1 : 0 < d.length) (hd2 : d.length ≤ 2000)
    (ha1 : 0 < a.length) (ha2 : a.length ≤ 100)
    (hg1 : 0 < g.length) (hg2 : g.length ≤ 200)
    (hport : 0 < port)
    (hbn : hasBidi n = false) (hbd : hasBidi d = false) (hba : hasBidi a = false)
    (dfe : Bool) :
    (∃ st, runValidate (.parsed (.obj [("name", .str n), ("version", .str v), ("description", .str d), ("author", .str a), ("image", .str g), ("ui", .obj [("port", .num port)])])) dfe = .ok st ∧
      st.results.filter (fun e => e.level == Level.fail) = [⟨Level.fail, "id is required"⟩] ∧
      st.errors = 1 ∧
      (∀ mode p, ∃ r, validate (.parsed (.obj [("name", .str n), ("version", .str v), ("description", .str d), ("author", .str a), ("image", .str g), ("ui", .obj [("port", .num port)])])) dfe mode p = .ok (r, false))) ∧
    (∃ st, runValidate (.parsed (.obj [("id", .str i), ("version", .str v), ("description", .str d), ("author", .str a), ("image", .str g), ("ui", .obj [("port", .num port)])])) dfe = .ok st ∧
      st.results.filter (fun e => e.level == Level.fail) = [⟨Level.fail, "name is required"⟩] ∧
      st.errors = 1 ∧
      (∀ mode p, ∃ r, validate (.parsed (.obj [("id", .str i), ("version", .str v), ("description", .str d), ("author", .str a), ("image", .str g), ("ui", .obj [("port", .num port)])])) dfe mode p = .ok (r, false))) ∧
    (∃ st, runValidate (.parsed (.obj [("id", .str i), ("name", .str n), ("description", .str d), ("author", .str a), ("image", .str g), ("ui", .obj [("port", .num port)])])) dfe = .ok st ∧
      st.results.filter (fun e => e.level == Level.fail) = [⟨Level.fail, "version is required"⟩] ∧
      st.errors = 1 ∧
      (∀ mode p, ∃ r, validate (.parsed (.obj [("id", .str i), ("name", .str n), ("description", .str d), ("author", .str a), ("image", .str g), ("ui", .obj [("port", .num port)])])) dfe mode p = .ok (r, false))) ∧
    (∃ st, runValidate (.parsed (.obj [("id", .str i), ("name", .str n), ("version", .str v), ("author", .str a), ("image", .str g), ("ui", .obj [("port", .num port)])])) dfe = .ok st ∧
      st.results.filter (fun e => e.level == Level.fail) = [⟨Level.fail, "description is required"⟩] ∧
      st.errors = 1 ∧
      (∀ mode p, ∃ r, validate (.parsed (.obj [("id", .str i), ("name", .str n), ("version", .str v), ("author", .str a), ("image", .str g), ("ui", .obj [("port", .num port)])])) dfe mode p = .ok (r, false))) ∧
    (∃ st, runValidate (.parsed (.obj [("id", .str i), ("name", .str n), ("version", .str v), ("description", .str d), ("image", .str g), ("ui", .obj [("port", .num port)])])) dfe = .ok st ∧
      st.results.filter (fun e => e.level == Level.fail) = [⟨Level.fail, "author is required"⟩] ∧
      st.errors = 1 ∧
      (∀ mode p, ∃ r, validate (.parsed (.obj [("id", .str i), ("name", .str n), ("version", .str v), ("description", .str d), ("image", .str g), ("ui", .obj [("port", .num port)])])) dfe mode p = .ok (r, false))) ∧
    (∃ st, runValidate (.parsed (.obj [("id", .str i), ("name", .str n), ("version", .str v), ("description", .str d), ("author", .str a), ("ui", .obj [("port", .num port)])])) dfe = .ok st ∧
      st.results.filter (fun e => e.level == Level.fail) = [⟨Level.fail, "image is required"⟩] ∧
      st.errors = 1 ∧
      (∀ mode p, ∃ r, validate (.parsed (.obj [("id", .str i), ("name", .str n), ("version", .str v), ("description", .str d), ("author", .str a), ("ui", .obj [("port", .num port)])])) dfe mode p = .ok (r, false))) ∧
    (∃ st, runValidate (.parsed (.obj [("id", .str i), ("name", .str n), ("version", .str v), ("description", .str d), ("author", .str a), ("image", .str g)])) dfe = .ok st ∧
      st.results.filter (fun e => e.level == Level.fail) = [⟨Level.fail, "ui.port must be a non-zero number"⟩] ∧
      st.errors = 1 ∧
      (∀ mode p, ∃ r, validate (.parsed (.obj [("id", .str i), ("name", .str n), ("version", .str v), ("description", .str d), ("author", .str a), ("image", .str g)])) dfe mode p = .ok (r, false))) := by
  refine ⟨?_, ?_, ?_, ?_, ?_, ?_, ?_⟩
  · obtain ⟨st, hrv, hfil, herr⟩ := c4_missing_id n v d a g port hn1 hn2 hv1 hv2 hd1 hd2 ha1 ha2 hg1 hg2 hport hbn hbd hba dfe
    exact ⟨st, hrv, hfil, herr, validate_false_of_errors _ _ _ hrv herr⟩
  · obtain ⟨st, hrv, hfil, herr⟩ := c4_missing_name i v d a g port hi1 hi2 hv1 hv2 hd1 hd2 ha1 ha2 hg1 hg2 hport hbd hba dfe
    exact ⟨st, hrv, hfil, herr, validate_false_of_errors _ _ _ hrv herr⟩
  · obtain ⟨st, hrv, hfil, herr⟩ := c4_missing_version i n d a g port hi1 hi2 hn1 hn2 hd1 hd2 ha1 ha2 hg1 hg2 hport hbn hbd hba dfe
    exact ⟨st, hrv, hfil, herr, validate_false_of_errors _ _ _ hrv herr⟩
  · obtain ⟨st, hrv, hfil, herr⟩ := c4_missing_description i n v a g port hi1 hi2 hn1 hn2 hv1 hv2 ha1 ha2 hg1 hg2 hport hbn hba dfe
    exact ⟨st, hrv, hfil, herr, validate_false_of_errors _ _ _ hrv herr⟩
  · obtain ⟨st, hrv, hfil, herr⟩ := c4_missing_author i n v d g port hi1 hi2 hn1 hn2 hv1 hv2 hd1 hd2 hg1 hg2 hport hbn hbd dfe
    exact ⟨st, hrv, hfil, herr, validate_false_of_errors _ _ _ hrv herr⟩
  · obtain ⟨st, hrv, hfil, herr⟩ := c4_missing_image i n v d a port hi1 hi2 hn1 hn2 hv1 hv2 hd1 hd2 ha1 ha2 hport hbn hbd hba dfe
    exact ⟨st, hrv, hfil, herr, validate_false_of_errors _ _ _ hrv herr⟩
  · obtain ⟨st, hrv, hfil, herr⟩ := c4_missing_ui i n v d a g hi1 hi2 hn1 hn2 hv1 hv2 hd1 hd2 ha1 ha2 hg1 hg2 hbn hbd hba dfe
    exact ⟨st, hrv, hfil, herr, validate_false_of_errors _ _ _ hrv herr⟩

/-- Witness for C4 at concrete field values (the missing-id case). -/
theorem missing_required_field_yields_single_fail_witness :
    (∃ st, runValidate (.parsed (.obj [("name", .str "X"), ("version", .str "1.0.0"), ("description", .str "d"), ("author", .str "me"), ("image", .str "img:tag"), ("ui", .obj [("port", .num 80)])])) false = .ok st ∧
      st.results.filter (fun e => e.level == Level.fail) = [⟨Level.fail, "id is required"⟩] ∧
      st.errors = 1 ∧
      (∀ mode p, ∃ r, validate (.parsed (.obj [("name", .str "X"), ("version", .str "1.0.0"), ("description", .str "d"), ("author", .str "me"), ("image", .str "img:tag"), ("ui", .obj [("port", .num 80)])])) false mode p = .ok (r, false))) :=
  (missing_required_field_yields_single_fail "com.a.b" "X" "1.0.0" "d" "me" "img:tag" 80
    (by decide) (by decide) (by decide) (by decide) (by decide) (by decide)
    (by decide) (by decide) (by decide) (by decide) (by decide) (by decide)
    (by decide) (by decide) (by decide) (by decide) false).1

/-- Claim C9: the example manifest with no sibling Dockerfile validates
with overall success true, 0 errors and 1 warning; and on every
completing run with the Dockerfile absent, the Dockerfile advisory is
recorded as the final entry with level `warn` (never `fail`). -/
theorem example_manifest_end_to_end :
    (validate (.parsed exampleManifest) false true "plugin.json" =
      .ok (.json ⟨"plugin.json", true, 0, 1,
        [ ⟨Level.pass, "id present"⟩, ⟨Level.pass, "name present"⟩
        , ⟨Level.pass, "version present"⟩, ⟨Level.pass, "description present"⟩
        , ⟨Level.pass, "author present"⟩, ⟨Level.pass, "image present"⟩
        , ⟨Level.pass, "ui.port = 80"⟩, ⟨Level.pass, "id length ok"⟩
        , ⟨Level.pass, "name length ok"⟩, ⟨Level.pass, "version length ok"⟩
        , ⟨Level.pass, "description length ok"⟩, ⟨Level.pass, "author length ok"⟩
        , ⟨Level.pass, "image length ok"⟩, ⟨Level.pass, "no bidi override characters"⟩
        , ⟨Level.warn, "no Dockerfile found next to plugin.json"⟩ ]⟩, true)) ∧
    (∀ m st st2, runChecks m false st = .ok st2 →
      st2.results.getLast? = some ⟨Level.warn, "no Dockerfile found next to plugin.json"⟩) := by
  constructor
  · rfl
  · intro m st st2 h
    obtain ⟨stX, hX⟩ := runChecks_dockerfile_last m false st st2 h
    subst hX
    simp [dockerfileCheck, warn]

/-- Witness for C9's universally-quantified Dockerfile-warning part at
a concrete run. -/
theorem example_manifest_end_to_end_witness :
    (⟨[ ⟨Level.pass, "id present"⟩, ⟨Level.pass, "name present"⟩
      , ⟨Level.pass, "version present"⟩, ⟨Level.pass, "description present"⟩
      , ⟨Level.pass, "author present"⟩, ⟨Level.pass, "image present"⟩
      , ⟨Level.pass, "ui.port = 80"⟩, ⟨Level.pass, "id length ok"⟩
      , ⟨Level.pass, "name length ok"⟩, ⟨Level.pass, "version length ok"⟩
      , ⟨Level.pass, "description length ok"⟩, ⟨Level.pass, "author length ok"⟩
      , ⟨Level.pass, "image length ok"⟩, ⟨Level.pass, "no bidi override characters"⟩
      , ⟨Level.warn, "no Dockerfile found next to plugin.json"⟩ ], 0, 1⟩ : VState).results.getLast? =
      some ⟨Level.warn, "no Dockerfile found next to plugin.json"⟩ :=
  example_manifest_end_to_end.2 exampleManifest initialState _ rfl

theorem permLoop_on_strings (mk : String → String) :
    ∀ (l : List String) (ok : Bool) (st : VState),
      permLoop mk (l.map JsValue.str) ok st =
        .ok (ok && l.all validPerm,
          ⟨st.results ++ (l.filter (fun s => !validPerm s)).map
              (fun s => ⟨Level.fail, mk s⟩),
            st.errors + (l.filter (fun s => !validPerm s)).length,
            st.warnings⟩) := by
  intro l
  induction l with
  | nil =>
    intro ok st
    simp [permLoop]
  | cons p rest ih =>
    intro ok st
    simp only [List.map_cons, permLoop, includesStr, jsStartsWith]
    by_cases hc : VALID_PERMISSIONS.contains p
    · have hvp : validPerm p = true := by
        unfold validPerm
        rw [hc]
        rfl
      rw [if_pos hc, ih]
      simp [hvp]
    · rw [if_neg hc]
      rw [Bool.not_eq_true] at hc
      by_cases hsw : p.startsWith "ext:"
      · have hvp : validPerm p = true := by
          unfold validPerm
          rw [hsw]
          simp
        simp only [hsw, ih]
        simp [hvp]
      · rw [Bool.not_eq_true] at hsw
        have hvp : validPerm p = false := by
          unfold validPerm
          rw [hc, hsw]
          rfl
        simp only [hsw, ih]
        simp [hvp, fail, jsToString, List.append_assoc]
        omega

/-- Claim C5: for a permissions array of string tokens, one aggregated
pass entry is produced when every token is recognized or
`ext:`-prefixed; otherwise one fail entry per invalid token (no early
exit), each naming the offending token, and no aggregated pass entry. -/
theorem permissions_array_aggregated (perms : List String) (st : VState) :
    permissionsSection (JsValue.arr (perms.map JsValue.str)) st =
      .ok (if perms.all validPerm then
          pass ("permissions valid (" ++ toString perms.length ++ ")") st
        else
          ⟨st.results ++ (perms.filter (fun s => !validPerm s)).map
              (fun s => ⟨Level.fail, "invalid permission: \"" ++ s ++ "\""⟩),
            st.errors + (perms.filter (fun s => !validPerm s)).length,
            st.warnings⟩) := by
  simp only [permissionsSection]
  rw [permLoop_on_strings]
  by_cases hall : perms.all validPerm
  · have hfe : perms.filter (fun s => !validPerm s) = [] := by
      rw [List.filter_eq_nil_iff]
      intro s hs
      simp [List.all_eq_true.mp hall s hs]
    simp [hall, hfe]
  · simp only [Bool.not_eq_true] at hall
    simp [hall]

theorem string_ext {s t : String} (h : s.data = t.data) : s = t := by
  cases s
  cases t
  exact congrArg String.mk h

theorem data_head_append (s t : String) (c : Char) (h : s.data.head? = some c) :
    (s ++ t).data.head? = some c := by
  rw [String.data_append]
  cases hd : s.data with
  | nil => rw [hd] at h; simp at h
  | cons x xs =>
    rw [hd] at h
    simp at h
    simp [h]

theorem dupMsg_data_head (q : String) : (dupMsg q).data.head? = some 'd' := by
  unfold dupMsg
  apply data_head_append
  apply data_head_append
  rfl

theorem ne_dupMsg_of_head_M {m : String} (h : m.data.head? = some 'M') (q : String) :
    m ≠ dupMsg q := by
  intro he
  rw [he, dupMsg_data_head q] at h
  simp at h

theorem dupMsg_inj {a b : String} (h : dupMsg a = dupMsg b) : a = b := by
  unfold dupMsg at h
  have hd := congrArg String.data h
  rw [String.data_append, String.data_append, String.data_append, String.data_append] at hd
  rw [List.append_assoc, List.append_assoc] at hd
  have h2 := List.append_cancel_left hd
  have h3 := List.append_cancel_right h2
  exact string_ext h3

theorem dupEvents_append (seen : List String) (a b : List String) :
    dupEvents seen (a ++ b) = dupEvents seen a ++ dupEvents (seenAfter seen a) b := by
  induction a generalizing seen with
  | nil => simp [dupEvents, seenAfter]
  | cons x xs ih =>
    simp only [List.cons_append, dupEvents, seenAfter]
    by_cases hx : x ∈ seen
    · simp [hx, ih]
    · simp [hx, ih]

theorem mem_seenAfter (x : String) (seen l : List String) :
    x ∈ seenAfter seen l ↔ x ∈ l ∨ x ∈ seen := by
  induction l generalizing seen with
  | nil => simp [seenAfter]
  | cons y ys ih =>
    simp only [seenAfter]
    by_cases hy : y ∈ seen
    · rw [if_pos hy, ih]
      constructor
      · intro h
        rcases h with h | h
        · exact Or.inl (List.mem_cons_of_mem _ h)
        · exact Or.inr h
      · intro h
        rcases h with h | h
        · rcases List.mem_cons.mp h with h2 | h2
          · subst h2; exact Or.inr hy
          · exact Or.inl h2
        · exact Or.inr h
    · rw [if_neg hy, ih]
      constructor
      · intro h
        rcases h with h | h
        · exact Or.inl (List.mem_cons_of_mem _ h)
        · rcases List.mem_cons.mp h with h2 | h2
          · subst h2; exact Or.inl (List.mem_cons_self _ _)
          · exact Or.inr h2
      · intro h
        rcases h with h | h
        · rcases List.mem_cons.mp h with h2 | h2
          · subst h2; exact Or.inr (List.mem_cons_self _ _)
          · exact Or.inl h2
        · exact Or.inr (List.mem_cons_of_mem _ h)

theorem dupEvents_nil_of_fresh (l : List String) (seen : List String)
    (hfresh : ∀ x ∈ l, x ∉ seen) (hnd : l.Nodup) : dupEvents seen l = [] := by
  induction l generalizing seen with
  | nil => rfl
  | cons x xs ih =>
    simp only [dupEvents]
    rw [if_neg (hfresh x (List.mem_cons_self _ _))]
    apply ih
    · intro y hy
      simp only [List.mem_cons]
      rintro (h | h)
      · subst h
        exact (List.nodup_cons.mp hnd).1 hy
      · exact hfresh y (List.mem_cons_of_mem _ hy) h
    · exact (List.nodup_cons.mp hnd).2

theorem dupEvents_one_pair (s : String) (u v w : List String)
    (hnd : (u ++ v ++ w).Nodup) (hs : s ∉ u ++ v ++ w) :
    dupEvents [] (u ++ s :: v ++ s :: w) = [s] := by
  simp only [List.mem_append, not_or] at hs
  obtain ⟨⟨hsu, hsv⟩, hsw⟩ := hs
  rw [List.append_assoc] at hnd
  have hu := (List.nodup_append.mp hnd).1
  have hvw := (List.nodup_append.mp hnd).2.1
  have hdisj := (List.nodup_append.mp hnd).2.2
  have hv := (List.nodup_append.mp hvw).1
  have hw := (List.nodup_append.mp hvw).2.1
  have hdisj2 := (List.nodup_append.mp hvw).2.2
  have h1 : dupEvents ([] : List String) u = [] :=
    dupEvents_nil_of_fresh u [] (by simp) hu
  rw [show u ++ s :: v ++ s :: w = u ++ ((s :: v) ++ (s :: w)) by simp,
    dupEvents_append, h1, dupEvents_append]
  have hmemu : ∀ x, x ∈ seenAfter [] u ↔ x ∈ u := by
    intro x
    rw [mem_seenAfter]
    simp
  have h2 : dupEvents (seenAfter [] u) (s :: v) = [] := by
    apply dupEvents_nil_of_fresh
    · intro x hx
      rw [hmemu]
      rcases List.mem_cons.mp hx with h | h
      · subst h; exact hsu
      · intro hxu
        exact hdisj hxu (List.mem_append.mpr (Or.inl h))
    · rw [List.nodup_cons]
      exact ⟨hsv, hv⟩
  rw [h2]
  have hsmem : s ∈ seenAfter (seenAfter [] u) (s :: v) := by
    rw [mem_seenAfter]
    exact Or.inl (List.mem_cons_self _ _)
  simp only [dupEvents, if_pos hsmem, List.nil_append]
  have h3 : dupEvents (seenAfter (seenAfter [] u) (s :: v)) w = [] := by
    apply dupEvents_nil_of_fresh
    · intro x hx
      rw [mem_seenAfter, mem_seenAfter]
      simp only [List.mem_cons, List.not_mem_nil, or_false, not_or]
      refine ⟨⟨?_, ?_⟩, ?_⟩
      · intro h
        subst h
        exact hsw hx
      · intro h
        exact hdisj2 h hx
      · intro h
        exact hdisj h (List.mem_append.mpr (Or.inr hx))
    · exact hw
  rw [h3]

theorem exists_map_str : ∀ (xs : List JsValue),
    xs.all (fun x => match x with | JsValue.str _ => true | _ => false) = true →
    ∃ l : List String, xs = l.map JsValue.str := by
  intro xs
  induction xs with
  | nil => intro _; exact ⟨[], rfl⟩
  | cons x rest ih =>
    intro h
    simp only [List.all_cons, Bool.and_eq_true] at h
    obtain ⟨hx, hrest⟩ := h
    obtain ⟨l, rfl⟩ := ih hrest
    cases x with
    | str s => exact ⟨s :: l, rfl⟩
    | undefined => simp at hx
    | null => simp at hx
    | bool b => simp at hx
    | num n => simp at hx
    | arr a => simp at hx
    | obj o => simp at hx

theorem toolPermsOkSpec_map (l : List String) :
    toolPermsOkSpec (.arr (l.map JsValue.str)) = l.all validPerm := by
  induction l with
  | nil => rfl
  | cons a as ih =>
    simp only [toolPermsOkSpec, List.map_cons, List.all_cons] at ih ⊢
    rw [ih]
    rfl

theorem descCheckTool_spec (nm : String) (v : JsValue) (st : VState) :
    ∃ dd, (descCheckTool nm v st).1 = descriptionOkSpec v ∧
      (descCheckTool nm v st).2 = ⟨st.results ++ dd, st.errors + dd.length, st.warnings⟩ ∧
      (∀ e ∈ dd, e.level = Level.fail ∧ ∃ x, e.msg = ("MCP tool \"" ++ nm) ++ x) ∧
      (descriptionOkSpec v = true → dd = []) ∧
      (descriptionOkSpec v = false → dd ≠ []) := by
  unfold descCheckTool
  split
  · rename_i h1
    refine ⟨[⟨Level.fail, ("MCP tool \"" ++ nm) ++ "\" must have a description"⟩],
      by simp [descriptionOkSpec, h1], by simp [fail], ?_, ?_, ?_⟩
    · intro e he
      simp only [List.mem_singleton] at he
      subst he
      exact ⟨rfl, _, rfl⟩
    · intro hc
      simp [descriptionOkSpec, h1] at hc
    · intro _
      simp
  · split
    · rename_i h1 h2
      refine ⟨[⟨Level.fail, ("MCP tool \"" ++ nm) ++ "\" description exceeds 2000 characters"⟩],
        by simp [descriptionOkSpec, h2], by simp [fail], ?_, ?_, ?_⟩
      · intro e he
        simp only [List.mem_singleton] at he
        subst he
        exact ⟨rfl, _, rfl⟩
      · intro hc
        simp [descriptionOkSpec, h2] at hc
      · intro _
        simp
    · split
      · rename_i h1 h2 h3
        refine ⟨[⟨Level.fail, ("MCP tool \"" ++ nm) ++ "\" description contains bidi overrides"⟩],
          by simp [descriptionOkSpec, h3], by simp [fail], ?_, ?_, ?_⟩
        · intro e he
          simp only [List.mem_singleton] at he
          subst he
          exact ⟨rfl, _, rfl⟩
        · intro hc
          simp [descriptionOkSpec, h3] at hc
        · intro _
          simp
      · rename_i h1 h2 h3
        refine ⟨[], ?_, by simp, by simp, fun _ => rfl, ?_⟩
        · simp only [Bool.not_eq_true] at h1 h2 h3
          simp [descriptionOkSpec, h1, h2, h3]
        · intro hc
          simp only [Bool.not_eq_true] at h1 h2 h3
          simp [descriptionOkSpec, h1, h2, h3] at hc

theorem schemaCheckTool_spec (nm : String) (v : JsValue) (st : VState) :
    ∃ sd, (schemaCheckTool nm v st).1 = schemaOkSpec v ∧
      (schemaCheckTool nm v st).2 = ⟨st.results ++ sd, st.errors + sd.length, st.warnings⟩ ∧
      (∀ e ∈ sd, e.level = Level.fail ∧ ∃ x, e.msg = ("MCP tool \"" ++ nm) ++ x) ∧
      (schemaOkSpec v = true → sd = []) ∧
      (schemaOkSpec v = false → sd ≠ []) := by
  unfold schemaCheckTool
  split
  · rename_i h1
    refine ⟨[⟨Level.fail, ("MCP tool \"" ++ nm) ++ "\" input_schema must have \"type\": \"object\" at root"⟩],
      by simp [schemaOkSpec, h1], by simp [fail], ?_, ?_, ?_⟩
    · intro e he
      simp only [List.mem_singleton] at he
      subst he
      exact ⟨rfl, _, rfl⟩
    · intro hc
      simp [schemaOkSpec, h1] at hc
    · intro _
      simp
  · rename_i h1
    refine ⟨[], ?_, by simp, by simp, fun _ => rfl, ?_⟩
    · simp only [Bool.not_eq_true] at h1
      simp [schemaOkSpec, h1]
    · intro hc
      simp only [Bool.not_eq_true] at h1
      simp [schemaOkSpec, h1] at hc

theorem toolPermsCheck_spec (nm : String) (v : JsValue) (hs : stringsOnly v = true) (st : VState) :
    ∃ pd, toolPermsCheck nm v st =
        .ok (toolPermsOkSpec v, ⟨st.results ++ pd, st.errors + pd.length, st.warnings⟩) ∧
      (∀ e ∈ pd, e.level = Level.fail ∧ ∃ x, e.msg = ("MCP tool \"" ++ nm) ++ x) ∧
      (toolPermsOkSpec v = true → pd = []) ∧
      (toolPermsOkSpec v = false → pd ≠ []) := by
  unfold toolPermsCheck
  split
  · rename_i xs
    simp only [stringsOnly] at hs
    obtain ⟨l, rfl⟩ := exists_map_str xs hs
    rw [permLoop_on_strings, toolPermsOkSpec_map]
    refine ⟨(l.filter (fun a => !validPerm a)).map
      (fun a => ⟨Level.fail,
        (("MCP tool \"" ++ nm) ++ "\" has invalid permission: \"" ++ a ++ "\"" : String)⟩), ?_, ?_, ?_, ?_⟩
    · simp [List.length_map]
    · intro e he
      simp only [List.mem_map] at he
      obtain ⟨a, ha, rfl⟩ := he
      refine ⟨rfl, "\" has invalid permission: \"" ++ a ++ "\"", ?_⟩
      simp [String.append_assoc]
    · intro hall
      have hfe : l.filter (fun a => !validPerm a) = [] := by
        rw [List.filter_eq_nil_iff]
        intro a ha
        simp [List.all_eq_true.mp hall a ha]
      simp [hfe]
    · intro hfail
      intro hmap
      rw [List.map_eq_nil_iff, List.filter_eq_nil_iff] at hmap
      rw [List.all_eq_false] at hfail
      obtain ⟨a, ha, hna⟩ := hfail
      exact hmap a ha (by simp [hna])
  · rename_i hnotarr
    have hspec : toolPermsOkSpec v = true := by
      cases v with
      | arr xs => exact absurd rfl (hnotarr xs)
      | undefined => rfl
      | null => rfl
      | bool b => rfl
      | num n => rfl
      | str s => rfl
      | obj o => rfl
    rw [hspec]
    exact ⟨[], by simp, by simp, fun _ => rfl, by simp⟩

theorem any_svz_map_str (seenS : List String) (nm : String) :
    ((seenS.map JsValue.str).any (fun x => sameValueZero x (JsValue.str nm))) =
      decide (nm ∈ seenS) := by
  induction seenS with
  | nil => rfl
  | cons a as ih =>
    simp only [List.map_cons, List.any_cons]
    rw [ih, show sameValueZero (JsValue.str a) (JsValue.str nm) = (a == nm) from rfl]
    simp only [List.mem_cons]
    by_cases h : a = nm
    · subst h
      simp
    · have h2 : (a == nm) = false := by simp [h]
      simp [h2, h, Ne.symm h]

theorem count_dup_zero_of_shape (dd : List Entry) (nm s : String)
    (h : ∀ e ∈ dd, e.level = Level.fail ∧ ∃ x, e.msg = ("MCP tool \"" ++ nm) ++ x) :
    dd.count ⟨Level.fail, dupMsg s⟩ = 0 := by
  rw [List.count_eq_zero]
  intro hmem
  obtain ⟨-, x, hx⟩ := h _ hmem
  have hhead : (("MCP tool \"" ++ nm) ++ x).data.head? = some 'M' :=
    data_head_append _ _ _ (data_head_append _ _ _ (by rfl))
  rw [← hx] at hhead
  rw [show Entry.msg ⟨Level.fail, dupMsg s⟩ = dupMsg s from rfl, dupMsg_data_head] at hhead
  simp at hhead

theorem dup_entry_beq (nm s : String) :
    ((⟨Level.fail, dupMsg nm⟩ : Entry) == ⟨Level.fail, dupMsg s⟩) = (nm == s) := by
  by_cases h : nm = s
  · subst h
    simp
  · have h1 : ((⟨Level.fail, dupMsg nm⟩ : Entry) == ⟨Level.fail, dupMsg s⟩) = false := by
      rw [beq_eq_false_iff_ne]
      intro hc
      injection hc with h2 h3
      exact h (dupMsg_inj h3)
    have h2 : (nm == s) = false := by simp [h]
    rw [h1, h2]

theorem toolLoop_dupCount (s : String) :
    ∀ (tools : List JsValue) (seenS : List String) (ok : Bool) (st : VState),
      (∀ t ∈ tools, nonNullish t = true ∧ stringsOnly (propLookup t "permissions") = true ∧
        ∃ nm, propLookup t "name" = JsValue.str nm ∧ toolNameTest nm = true) →
      ∃ ok2 st2, toolLoop tools (seenS.map JsValue.str) ok st = .ok (ok2, st2) ∧
        st2.results.count ⟨Level.fail, dupMsg s⟩ =
          st.results.count ⟨Level.fail, dupMsg s⟩ +
            (dupEvents seenS (tools.map toolNameOf)).count s := by
  intro tools
  induction tools with
  | nil =>
    intro seenS ok st _
    exact ⟨ok, st, rfl, by simp [dupEvents]⟩
  | cons tool rest ih =>
    intro seenS ok st hall
    obtain ⟨hnn, hperms, nm, hnm, hpat⟩ := hall tool (List.mem_cons_self _ _)
    have hrest := fun t ht => hall t (List.mem_cons_of_mem _ ht)
    have hname : toolNameOf tool = nm := by simp [toolNameOf, hnm]
    simp only [toolLoop, getProp_ok_of_nonNullish tool hnn, hnm,
      show jsToString (JsValue.str nm) = nm from rfl, hpat, Bool.not_true, if_false,
      any_svz_map_str, List.map_cons, hname]
    by_cases hmem : nm ∈ seenS
    · simp only [hmem, decide_True, if_true]
      obtain ⟨ok2, st2, heq, hcount⟩ :=
        ih seenS false (fail ("duplicate MCP tool name: \"" ++ nm ++ "\"") st) hrest
      refine ⟨ok2, st2, heq, ?_⟩
      rw [hcount]
      simp only [fail, List.count_append, dupEvents, if_pos hmem, List.count_cons]
      have hbeq := dup_entry_beq nm s
      rw [show (("duplicate MCP tool name: \"" ++ nm ++ "\"" : String)) = dupMsg nm from rfl]
      rw [hbeq]
      simp only [List.count_nil, List.count_cons]
      by_cases hns : nm = s
      · subst hns
        simp
        omega
      · have h2 : (nm == s) = false := by simp [hns]
        simp [h2]
    · simp only [hmem, decide_False, if_false]
      obtain ⟨dd, hd1, hd2, hd3, hd4, hd5⟩ := descCheckTool_spec nm (propLookup tool "description") st
      rw [hd2]
      obtain ⟨sd, hs1, hs2, hs3, hs4, hs5⟩ := schemaCheckTool_spec nm (propLookup tool "input_schema")
        ⟨st.results ++ dd, st.errors + dd.length, st.warnings⟩
      rw [hs2]
      obtain ⟨pd, hp1, hp2, hp3, hp4⟩ := toolPermsCheck_spec nm (propLookup tool "permissions") hperms
        ⟨(st.results ++ dd) ++ sd, (st.errors + dd.length) + sd.length, st.warnings⟩
      rw [hp1]
      rw [show (JsValue.str nm :: seenS.map JsValue.str) = (nm :: seenS).map JsValue.str from rfl]
      obtain ⟨ok2, st2, heq, hcount⟩ := ih (nm :: seenS)
        (ok && (descCheckTool nm (propLookup tool "description") st).1 &&
          (schemaCheckTool nm (propLookup tool "input_schema")
            ⟨st.results ++ dd, st.errors + dd.length, st.warnings⟩).1 &&
          toolPermsOkSpec (propLookup tool "permissions"))
        ⟨((st.results ++ dd) ++ sd) ++ pd,
          ((st.errors + dd.length) + sd.length) + pd.length, st.warnings⟩ hrest
      refine ⟨ok2, st2, heq, ?_⟩
      rw [hcount]
      simp only [List.count_append, dupEvents, if_neg hmem]
      rw [count_dup_zero_of_shape dd nm s hd3, count_dup_zero_of_shape sd nm s hs3,
        count_dup_zero_of_shape pd nm s hp2]
      omega

theorem pass_entry_ne_dup (m s : String) :
    ((⟨Level.pass, m⟩ : Entry) == ⟨Level.fail, dupMsg s⟩) = false := by
  rw [beq_eq_false_iff_ne]
  intro hcontra
  injection hcontra with h1 h2
  exact absurd h1 (by simp)

/-- Claim C6: an MCP tools array with all names pattern-valid and
exactly one pair of tools sharing a name produces exactly one
duplicate-name fail entry for that name, not two. -/
theorem one_duplicate_pair_yields_single_dup_entry (tools : List JsValue) (s : String)
    (u v w : List String) (st : VState)
    (hall : ∀ t ∈ tools, nonNullish t = true ∧ stringsOnly (propLookup t "permissions") = true ∧
      ∃ nm, propLookup t "name" = JsValue.str nm ∧ toolNameTest nm = true)
    (hshape : tools.map toolNameOf = u ++ s :: v ++ s :: w)
    (hnd : (u ++ v ++ w).Nodup) (hs : s ∉ u ++ v ++ w) :
    ∃ st2, mcpSection (JsValue.obj [("tools", JsValue.arr tools)]) st = .ok st2 ∧
      st2.results.count ⟨Level.fail, dupMsg s⟩ =
        st.results.count ⟨Level.fail, dupMsg s⟩ + 1 := by
  obtain ⟨ok2, st2, heq, hcount⟩ := toolLoop_dupCount s tools [] true st hall
  have heq2 : toolLoop tools [] true st = .ok (ok2, st2) := heq
  have hcount2 : st2.results.count ⟨Level.fail, dupMsg s⟩ =
      st.results.count ⟨Level.fail, dupMsg s⟩ + 1 := by
    rw [hcount, hshape, dupEvents_one_pair s u v w hnd hs]
    simp
  simp only [mcpSection,
    show truthy (JsValue.obj [("tools", JsValue.arr tools)]) = true from rfl, if_true,
    show propLookup (JsValue.obj [("tools", JsValue.arr tools)]) "tools" = JsValue.arr tools from rfl,
    heq2]
  split
  · exact ⟨_, rfl, by
      simp only [pass, List.count_append, List.count_cons, List.count_nil,
        pass_entry_ne_dup]
      simp [hcount2]⟩
  · exact ⟨st2, rfl, hcount2⟩

/-- Witness for C6 at a concrete three-tool array with one duplicate
pair of names. -/
theorem one_duplicate_pair_yields_single_dup_entry_witness :
    ∃ st2, mcpSection (JsValue.obj [("tools", JsValue.arr
        [ JsValue.obj [("name", JsValue.str "a"), ("description", JsValue.str "ok"),
            ("input_schema", JsValue.obj [("type", JsValue.str "object")])]
        , JsValue.obj [("name", JsValue.str "b"), ("description", JsValue.str "ok"),
            ("input_schema", JsValue.obj [("type", JsValue.str "object")])]
        , JsValue.obj [("name", JsValue.str "a"), ("description", JsValue.str "ok"),
            ("input_schema", JsValue.obj [("type", JsValue.str "object")])] ])])
      initialState = .ok st2 ∧
      st2.results.count ⟨Level.fail, dupMsg "a"⟩ =
        initialState.results.count ⟨Level.fail, dupMsg "a"⟩ + 1 := by
  refine one_duplicate_pair_yields_single_dup_entry _ "a" [] ["b"] [] initialState ?_ rfl
    (by simp) (by simp)
  intro t ht
  simp only [List.mem_cons, List.not_mem_nil, or_false] at ht
  rcases ht with h | h | h <;> subst h
  · exact ⟨rfl, rfl, "a", rfl, by decide⟩
  · exact ⟨rfl, rfl, "b", rfl, by decide⟩
  · exact ⟨rfl, rfl, "a", rfl, by decide⟩

theorem toolLoop_flagDelta :
    ∀ (tools : List JsValue) (seen : List JsValue) (ok : Bool) (st : VState),
      (∀ t ∈ tools, nonNullish t = true ∧ stringsOnly (propLookup t "permissions") = true) →
      ∃ st2 d, toolLoop tools seen ok st = .ok (ok && allCleanTools seen tools, st2) ∧
        st2.results = st.results ++ d ∧
        (∀ e ∈ d, e.level = Level.fail) ∧
        (allCleanTools seen tools = true → d = []) ∧
        (allCleanTools seen tools = false → d ≠ []) := by
  intro tools
  induction tools with
  | nil =>
    intro seen ok st _
    refine ⟨st, [], ?_, by simp, by simp, fun _ => rfl, ?_⟩
    · simp [toolLoop, allCleanTools]
    · intro h
      simp [allCleanTools] at h
  | cons tool rest ih =>
    intro seen ok st hall
    obtain ⟨hnn, hperms⟩ := hall tool (List.mem_cons_self _ _)
    have hrest := fun t ht => hall t (List.mem_cons_of_mem _ ht)
    simp only [toolLoop, getProp_ok_of_nonNullish tool hnn, allCleanTools]
    by_cases hpat : toolNameTest (jsToString (propLookup tool "name"))
    · by_cases hdup : seen.any (fun x => sameValueZero x (propLookup tool "name"))
      · -- duplicate name: fail and continue, seen unchanged
        rw [if_neg (by simp [hpat]), if_pos hdup]
        have hclean : toolClean seen tool = false := by
          simp [toolClean, hdup]
        have hsat : seenAfterTool seen tool = seen := by
          simp [seenAfterTool, hdup]
        obtain ⟨st2, d2, heq, hres, hlev, hnil, hnonnil⟩ :=
          ih seen false
            (fail ("duplicate MCP tool name: \"" ++ jsToString (propLookup tool "name") ++ "\"") st)
            hrest
        rw [hsat] at *
        refine ⟨st2,
          ⟨Level.fail, "duplicate MCP tool name: \"" ++ jsToString (propLookup tool "name") ++ "\""⟩ :: d2,
          ?_, ?_, ?_, ?_, ?_⟩
        · rw [heq, hclean]
          simp
        · rw [hres]
          simp [fail]
        · intro e he
          rcases List.mem_cons.mp he with h | h
          · subst h; rfl
          · exact hlev e h
        · intro hc
          rw [hclean] at hc
          simp at hc
        · intro _
          simp
      · -- fresh valid name: run the three sub-checks
        rw [if_neg (by simp [hpat]), if_neg hdup]
        obtain ⟨dd, hd1, hd2, hd3, hd4, hd5⟩ :=
          descCheckTool_spec (jsToString (propLookup tool "name")) (propLookup tool "description") st
        rw [hd2]
        obtain ⟨sd, hs1, hs2, hs3, hs4, hs5⟩ :=
          schemaCheckTool_spec (jsToString (propLookup tool "name")) (propLookup tool "input_schema")
            ⟨st.results ++ dd, st.errors + dd.length, st.warnings⟩
        rw [hs2]
        obtain ⟨pd, hp1, hp2, hp3, hp4⟩ :=
          toolPermsCheck_spec (jsToString (propLookup tool "name")) (propLookup tool "permissions") hperms
            ⟨(st.results ++ dd) ++ sd, (st.errors + dd.length) + sd.length, st.warnings⟩
        rw [hp1, hd1, hs1]
        dsimp only
        have hsat : seenAfterTool seen tool = propLookup tool "name" :: seen := by
          simp [seenAfterTool, hpat, hdup]
        obtain ⟨st2, d2, heq, hres, hlev, hnil, hnonnil⟩ :=
          ih (propLookup tool "name" :: seen)
            (ok && descriptionOkSpec (propLookup tool "description") &&
              schemaOkSpec (propLookup tool "input_schema") &&
              toolPermsOkSpec (propLookup tool "permissions"))
            ⟨((st.results ++ dd) ++ sd) ++ pd,
              ((st.errors + dd.length) + sd.length) + pd.length, st.warnings⟩ hrest
        rw [hsat]
        have hclean : toolClean seen tool =
            (descriptionOkSpec (propLookup tool "description") &&
              schemaOkSpec (propLookup tool "input_schema") &&
              toolPermsOkSpec (propLookup tool "permissions")) := by
          simp [toolClean, hpat, hdup, Bool.and_assoc]
        refine ⟨st2, dd ++ sd ++ pd ++ d2, ?_, ?_, ?_, ?_, ?_⟩
        · rw [heq, hclean]
          congr 1
          congr 1
          simp [Bool.and_assoc]
        · rw [hres]
          simp [List.append_assoc]
        · intro e he
          simp only [List.append_assoc, List.mem_append] at he
          rcases he with h | h | h | h
          · exact (hd3 e h).1
          · exact (hs3 e h).1
          · exact (hp2 e h).1
          · exact hlev e h
        · intro hc
          rw [hclean] at hc
          simp only [Bool.and_eq_true] at hc
          obtain ⟨⟨⟨hcd, hcs⟩, hcp⟩, hca⟩ := hc
          rw [hd4 hcd, hs4 hcs, hp3 hcp, hnil hca]
          rfl
        · intro hc
          rw [hclean] at hc
          intro hnl
          rw [List.append_eq_nil] at hnl
          obtain ⟨hnl1, hd2nil⟩ := hnl
          rw [List.append_eq_nil] at hnl1
          obtain ⟨hnl2, hpdnil⟩ := hnl1
          rw [List.append_eq_nil] at hnl2
          obtain ⟨hddnil, hsdnil⟩ := hnl2
          cases hb1 : descriptionOkSpec (propLookup tool "description") with
          | false => exact hd5 hb1 hddnil
          | true =>
            cases hb2 : schemaOkSpec (propLookup tool "input_schema") with
            | false => exact hs5 hb2 hsdnil
            | true =>
              cases hb3 : toolPermsOkSpec (propLookup tool "permissions") with
              | false => exact hp4 hb3 hpdnil
              | true =>
                cases hb4 : allCleanTools (propLookup tool "name" :: seen) rest with
                | false => exact hnonnil hb4 hd2nil
                | true =>
                  rw [hb1, hb2, hb3, hb4] at hc
                  simp at hc
    · -- invalid name: fail and continue, seen unchanged
      rw [if_pos (by simp [hpat])]
      have hclean : toolClean seen tool = false := by
        simp [toolClean, hpat]
      have hsat : seenAfterTool seen tool = seen := by
        simp [seenAfterTool, hpat]
      obtain ⟨st2, d2, heq, hres, hlev, hnil, hnonnil⟩ :=
        ih seen false
          (fail ("MCP tool name \"" ++ jsToString (propLookup tool "name") ++ "\" invalid (must be [a-z0-9_], 1-100 chars)") st)
          hrest
      rw [hsat] at *
      refine ⟨st2,
        ⟨Level.fail, "MCP tool name \"" ++ jsToString (propLookup tool "name") ++ "\" invalid (must be [a-z0-9_], 1-100 chars)"⟩ :: d2,
        ?_, ?_, ?_, ?_, ?_⟩
      · rw [heq, hclean]
        simp
      · rw [hres]
        simp [fail]
      · intro e he
        rcases List.mem_cons.mp he with h | h
        · subst h; rfl
        · exact hlev e h
      · intro hc
        rw [hclean] at hc
        simp at hc
      · intro _
        simp

/-- Counterexample to claim C7 as stated: a tool violating both the
name-pattern sub-check and the description sub-check contributes
exactly one fail entry (the `continue` after the name failure skips the
remaining sub-checks), not multiple. -/
theorem invalid_name_contributes_one_entry :
    mcpSection (JsValue.obj [("tools", JsValue.arr
        [JsValue.obj [("name", JsValue.str "Bad Name")]])]) initialState =
      .ok ⟨[⟨Level.fail, "MCP tool name \"Bad Name\" invalid (must be [a-z0-9_], 1-100 chars)"⟩],
        1, 0⟩ := rfl

/-- Claim C7, amended: the MCP tool section emits one aggregated pass
entry at the end exactly when every tool passes every sub-check;
otherwise it emits only fail entries (one per violated sub-check that
runs: a name-pattern or duplicate-name failure skips that tool's
remaining sub-checks, while a tool passing those may contribute one
fail entry per violated later sub-check, as the final conjunct shows
on a tool with a missing description and a missing input schema). -/
theorem mcp_aggregated_pass_iff_all_clean (tools : List JsValue) (st : VState)
    (hall : ∀ t ∈ tools, nonNullish t = true ∧ stringsOnly (propLookup t "permissions") = true) :
    ∃ st2 d, mcpSection (JsValue.obj [("tools", JsValue.arr tools)]) st = .ok st2 ∧
      st2.results = st.results ++ d ∧
      (allCleanTools [] tools = true →
        d = [⟨Level.pass, "MCP tools valid (" ++ toString tools.length ++ ")"⟩]) ∧
      (allCleanTools [] tools = false → d ≠ [] ∧ ∀ e ∈ d, e.level = Level.fail) ∧
      (∀ stx : VState, toolLoop [JsValue.obj [("name", JsValue.str "t1")]] [] true stx =
        .ok (false, ⟨stx.results ++
          [⟨Level.fail, "MCP tool \"t1\" must have a description"⟩] ++
          [⟨Level.fail, "MCP tool \"t1\" input_schema must have \"type\": \"object\" at root"⟩],
          stx.errors + 2, stx.warnings⟩)) := by
  obtain ⟨st2, d, heq, hres, hlev, hnil, hnonnil⟩ := toolLoop_flagDelta tools [] true st hall
  simp only [mcpSection,
    show truthy (JsValue.obj [("tools", JsValue.arr tools)]) = true from rfl, if_true,
    show propLookup (JsValue.obj [("tools", JsValue.arr tools)]) "tools" = JsValue.arr tools from rfl,
    heq, Bool.true_and]
  cases hac : allCleanTools [] tools with
  | true =>
    rw [if_pos rfl]
    refine ⟨pass ("MCP tools valid (" ++ toString tools.length ++ ")") st2,
      [⟨Level.pass, "MCP tools valid (" ++ toString tools.length ++ ")"⟩],
      rfl, ?_, fun _ => rfl, ?_, ?_⟩
    · simp [pass, hres, hnil hac]
    · intro hcontra
      exact absurd hcontra (by simp)
    · intro stx
      rfl
  | false =>
    rw [if_neg (by simp)]
    refine ⟨st2, d, rfl, hres, ?_, fun _ => ⟨hnonnil hac, hlev⟩, ?_⟩
    · intro hcontra
      exact absurd hcontra (by simp)
    · intro stx
      rfl

/-- Witness for the amended C7 at a concrete one-tool array. -/
theorem mcp_aggregated_pass_iff_all_clean_witness :
    ∃ st2 d, mcpSection (JsValue.obj [("tools", JsValue.arr
        [JsValue.obj [("name", JsValue.str "tool_a"), ("description", JsValue.str "okay"),
          ("input_schema", JsValue.obj [("type", JsValue.str "object")])]])]) initialState =
        .ok st2 ∧
      st2.results = initialState.results ++ d ∧
      (allCleanTools [] [JsValue.obj [("name", JsValue.str "tool_a"), ("description", JsValue.str "okay"),
          ("input_schema", JsValue.obj [("type", JsValue.str "object")])]] = true →
        d = [⟨Level.pass, "MCP tools valid (" ++ toString
          [JsValue.obj [("name", JsValue.str "tool_a"), ("description", JsValue.str "okay"),
            ("input_schema", JsValue.obj [("type", JsValue.str "object")])]].length ++ ")"⟩]) ∧
      (allCleanTools [] [JsValue.obj [("name", JsValue.str "tool_a"), ("description", JsValue.str "okay"),
          ("input_schema", JsValue.obj [("type", JsValue.str "object")])]] = false →
        d ≠ [] ∧ ∀ e ∈ d, e.level = Level.fail) ∧
      (∀ stx : VState, toolLoop [JsValue.obj [("name", JsValue.str "t1")]] [] true stx =
        .ok (false, ⟨stx.results ++
          [⟨Level.fail, "MCP tool \"t1\" must have a description"⟩] ++
          [⟨Level.fail, "MCP tool \"t1\" input_schema must have \"type\": \"object\" at root"⟩],
          stx.errors + 2, stx.warnings⟩)) := by
  refine mcp_aggregated_pass_iff_all_clean _ initialState ?_
  intro t ht
  simp only [List.mem_cons, List.not_mem_nil, or_false] at ht
  subst ht
  exact ⟨rfl, rfl⟩

end Nexus
